/-
  Verification development for the financials-mcp extraction pipeline
  (src/financial-api.js).

  The JavaScript source is shallowly embedded: every definition below is a
  direct translation of a function (or of the pure core of an async
  function, with the network modelled as an explicit input) from
  src/financial-api.js.  JavaScript numbers are modelled by rationals plus
  an explicit NaN marker; null/undefined by Option; thrown-and-caught
  exceptions by Except/Option.  Regex matching against upstream documents
  is modelled field-by-field: each declarative field pattern of the source
  becomes a lookup in an abstract document map carrying the capture text,
  since every pattern keys on a distinct literal field name.
-/
import Mathlib

namespace FinancialsMcp

/-! ## JavaScript number and string primitives -/

/-- Model of a JavaScript number as used by the pipeline: a finite value
(rational) or NaN.  (The extraction pipeline never produces infinities:
every number it builds comes from parseFloat/parseInt of a captured
numeral or from bounded arithmetic on those.) -/
inductive JSNum where
  | nan : JSNum
  | val : ℚ → JSNum
deriving DecidableEq

/-- Multiplication of a JS number by a finite constant; NaN propagates. -/
def JSNum.mul : JSNum → ℚ → JSNum
  | .nan, _ => .nan
  | .val q, m => .val (q * m)

/-- JavaScript truthiness of a number: 0 and NaN are falsy. -/
def jsTruthyNum : JSNum → Bool
  | .nan => false
  | .val q => decide (q ≠ 0)

/-- Decimal digit test, as used by the numeric regex character class. -/
def isDigitChar (c : Char) : Bool := c.isDigit

/-- Value of a digit string (most significant first). -/
def digitsToNat (ds : List Char) : ℕ :=
  ds.foldl (fun a c => 10 * a + (c.toNat - 48)) 0

/-- Leading-sign step of JS parseFloat. -/
def stripSign (cs : List Char) : ℚ × List Char :=
  match cs with
  | [] => (1, [])
  | c :: t => if c = '-' then (-1, t) else if c = '+' then (1, t) else (1, c :: t)

/-- Helper isolating the decimal-point step of JS parseFloat. -/
def afterDot : List Char → Option (List Char)
  | [] => none
  | c :: t => if c = '.' then some t else none

/-- Model of JavaScript parseFloat on character lists, for the
sign/digits/dot numerals this pipeline feeds it (regex captures over
digit-and-dot character classes and display strings such as 1.092T;
exponent notation never occurs in those inputs and is not modelled).
Returns NaN when no digits are consumed, exactly as parseFloat does. -/
def parseFloatChars (cs : List Char) : JSNum :=
  let cs1 := cs.dropWhile (fun c => c = ' ')
  let sg := stripSign cs1
  let ip := sg.2.takeWhile isDigitChar
  let r1 := sg.2.dropWhile isDigitChar
  match afterDot r1 with
  | some r2 =>
    let fp := r2.takeWhile isDigitChar
    if ip = [] ∧ fp = [] then .nan
    else .val (sg.1 * ((digitsToNat ip : ℚ) + (digitsToNat fp : ℚ) / (10 : ℚ) ^ fp.length))
  | none => if ip = [] then .nan else .val (sg.1 * (digitsToNat ip : ℚ))

/-- Model of JavaScript parseFloat on strings. -/
def parseFloat (s : String) : JSNum := parseFloatChars s.data

/-- Model of JavaScript parseInt on an all-digit capture, as applied to
captures of the pattern (backslash d +). -/
def parseIntDigits (s : String) : ℕ := digitsToNat s.data

/-- Character class of the numeric-magnitude regex capture group
(digits and the decimal point). -/
def isNumChar (c : Char) : Bool := isDigitChar c || c = '.'

/-- Suffix step of the magnitude regexes: an optional single character
from the unit-suffix class immediately following the numeral. -/
def suffixOf : List Char → Option Char
  | [] => none
  | d :: _ => if d ∈ ['B', 'K', 'M', 'G', 'T'] then some d else none

/-- First match of the magnitude regex (a maximal run of digits and dots,
then an optional unit-suffix character) inside a character list, as
performed by String.prototype.match with that pattern. -/
def findNumMatch : List Char → Option (List Char × Option Char)
  | [] => none
  | c :: t =>
    if isNumChar c then
      some ((c :: t).takeWhile isNumChar,
            suffixOf ((c :: t).dropWhile isNumChar))
    else findNumMatch t

/-- Unit-suffix multiplier table shared verbatim by parseRevenueValue and
by the formatted-value branch of toStockSummaryRow (K, M, B, T, and the
secondary B-equivalent G); an absent suffix multiplies by 1. -/
def suffixMultipliers : Option Char → ℚ
  | some 'K' => 1000
  | some 'M' => 1000000
  | some 'B' => 1000000000
  | some 'T' => 1000000000000
  | some 'G' => 1000000000000 / 1000
  | _ => 1

/-- JavaScript logical-or of an optional attribute string and a fallback
text (the empty string is falsy). -/
def jsOr (value : Option String) (text : String) : String :=
  match value with
  | some v => if v = "" then text else v
  | none => text

/-- Membership of a needle character list inside a haystack, modelling
String.prototype.includes. -/
def includesSub : List Char → List Char → Bool
  | n, [] => n.isEmpty
  | n, c :: t => n.isPrefixOf (c :: t) || includesSub n t

/-- Model of String.prototype.includes. -/
def stringIncludes (hay needle : String) : Bool := includesSub needle.data hay.data

/-! ## Formatted-value decoders (parseRevenueValue, parseFinancialValue,
and the formatted branch of toStockSummaryRow getValue) -/

/-- Translation of parseRevenueValue: null/placeholder guard, first match
of the magnitude regex, parseFloat of the numeral capture, unit-suffix
multiplier (unmatched suffix multiplies by 1).  A falsy (empty) input is
covered by the same guard as null. -/
def parseRevenueValue (text : String) : Option JSNum :=
  if text = "" ∨ text = "--" ∨ text = "N/A" then none
  else
    match findNumMatch text.data with
    | none => none
    | some (run, suffix) => some ((parseFloatChars run).mul (suffixMultipliers suffix))

/-- Translation of the parseFinancialValue helper inside extractSummaryData:
guard on both arguments falsy, placeholder guard, comma removal, then a
substring test for each unit letter in the order T, B, M, K (no G case),
scaling the parseFloat of the whole cleaned string. -/
def parseFinancialValue (value : Option String) (text : String) : Option JSNum :=
  if value.getD "" = "" ∧ text = "" then none
  else
    let numStr := jsOr value text
    if numStr = "--" ∨ numStr = "N/A" then none
    else
      let cleanStr := numStr.data.filter (fun c => c ≠ ',')
      if cleanStr.contains 'T' then some ((parseFloatChars cleanStr).mul 1000000000000)
      else if cleanStr.contains 'B' then some ((parseFloatChars cleanStr).mul 1000000000)
      else if cleanStr.contains 'M' then some ((parseFloatChars cleanStr).mul 1000000)
      else if cleanStr.contains 'K' then some ((parseFloatChars cleanStr).mul 1000)
      else some (parseFloatChars cleanStr)

/-- Typed value wrapper as stored by extractSummaryData: the raw number
(absent when the parsed JSON object lacks a raw property) and the display
string. -/
structure TypedVal where
  raw : Option JSNum
  fmt : Option String
deriving DecidableEq

/-- Argument shape of the getValue helper of toStockSummaryRow: absent,
a bare number, or a typed wrapper object. -/
inductive SummaryVal where
  | num : JSNum → SummaryVal
  | obj : TypedVal → SummaryVal
deriving DecidableEq

/-- Formatted-string branch of getValue: match the magnitude regex
against the fmt text and scale by the unit-suffix multiplier table. -/
def fmtStringValue (fmtStr : String) : Option JSNum :=
  match findNumMatch fmtStr.data with
  | none => none
  | some (run, suffix) => some ((parseFloatChars run).mul (suffixMultipliers suffix))

/-- Translation of the getValue helper of toStockSummaryRow: falsy guard
(absent, zero and NaN all return null), bare numbers returned as-is,
wrappers unwrapped through their raw property, otherwise decoded from the
fmt display string, and null in every remaining case. -/
def getValue : Option SummaryVal → Option JSNum
  | none => none
  | some (.num n) => if jsTruthyNum n then some n else none
  | some (.obj tv) =>
    match tv.raw with
    | some r => some r
    | none =>
      match tv.fmt with
      | some f => fmtStringValue f
      | none => none

/-! ## Summary-data extraction (extractSummaryData) and its row builder -/

/-- One fin-streamer DOM element carrying the summary symbol: its
data-field name, optional data-value attribute, and trimmed text. -/
structure FinStreamer where
  dataField : String
  dataValue : Option String
  text : String
deriving DecidableEq

/-- Field mapping of extractSummaryData for fin-streamer elements. -/
def summaryFieldMapping : List String :=
  ["marketCap", "trailingPE", "forwardPE", "beta", "enterpriseValue",
   "sharesOutstanding", "pegRatio"]

/-- Fields of the additionalMetrics regex table of extractSummaryData. -/
def additionalMetricFields : List String :=
  ["trailingEps", "forwardEps", "enterpriseToEbitda", "enterpriseToRevenue"]

/-- Fields of the jsonFieldPatterns table of extractSummaryData (note the
absence of marketCap and trailingPE). -/
def jsonFieldList : List String :=
  ["enterpriseValue", "sharesOutstanding", "beta", "forwardPE", "trailingEps",
   "forwardEps", "pegRatio", "enterpriseToEbitda", "enterpriseToRevenue"]

/-- Lookup of a field in the summaryData object (association list in
insertion order, keys unique). -/
def lookupField (m : List (String × TypedVal)) (k : String) : Option TypedVal :=
  (m.find? (fun p => p.1 = k)).map (·.2)

/-- JavaScript object-property assignment: overwrite in place when the key
exists, append otherwise. -/
def setField (m : List (String × TypedVal)) (k : String) (v : TypedVal) :
    List (String × TypedVal) :=
  if (m.find? (fun p => p.1 = k)).isSome then
    m.map (fun p => if p.1 = k then (k, v) else p)
  else m ++ [(k, v)]

/-- DOM pass of extractSummaryData: for each fin-streamer element whose
data-field is in the mapping, parse its value and store a raw/fmt wrapper
when the parse is non-null (the fmt text is data-value or the element
text, JS-or). -/
def applyFinStreamers (streamers : List FinStreamer)
    (m : List (String × TypedVal)) : List (String × TypedVal) :=
  streamers.foldl (fun acc e =>
    if e.dataField ∈ summaryFieldMapping then
      match parseFinancialValue e.dataValue e.text with
      | some v => setField acc e.dataField ⟨some v, some (jsOr e.dataValue e.text)⟩
      | none => acc
    else acc) m

/-- Additional-metrics regex pass of extractSummaryData: each captured
text is parseFloat-ed and stored (as raw plus the capture as fmt) only
when the result is not NaN.  The document is abstracted as a map from the
four field names to their regex capture, each pattern keying on a
distinct literal field name. -/
def applyAdditionalMetrics (addl : String → Option String)
    (m : List (String × TypedVal)) : List (String × TypedVal) :=
  additionalMetricFields.foldl (fun acc f =>
    match addl f with
    | some s =>
      match parseFloatChars s.data with
      | .val q => setField acc f ⟨some (.val q), some s⟩
      | .nan => acc
    | none => acc) m

/-- Embedded-JSON pass of extractSummaryData: for each field of the
jsonFieldPatterns table not already populated, store the unescaped and
JSON-parsed wrapper when the match and parse succeed.  The document is
abstracted as a map from field name to that parsed wrapper (none when the
pattern does not match or JSON.parse throws, which the source swallows). -/
def applyJsonFields (jsonF : String → Option TypedVal)
    (m : List (String × TypedVal)) : List (String × TypedVal) :=
  jsonFieldList.foldl (fun acc f =>
    if (acc.find? (fun p => p.1 = f)).isSome then acc
    else
      match jsonF f with
      | some tv => setField acc f tv
      | none => acc) m

/-- Comparison of a wrapper raw value against a bound, as the JS less-than
evaluates: false when the raw property is undefined or NaN. -/
def rawLt (tv : TypedVal) (b : ℚ) : Bool :=
  match tv.raw with
  | some (.val q) => decide (q < b)
  | _ => false

/-- Comparison of a wrapper raw value against a bound, as the JS
greater-than evaluates: false when the raw property is undefined or NaN. -/
def rawGt (tv : TypedVal) (b : ℚ) : Bool :=
  match tv.raw with
  | some (.val q) => decide (b < q)
  | _ => false

/-- Plausibility pass of extractSummaryData for trailingPE: when the
already-extracted (DOM-sourced) trailingPE has raw below 10, re-match the
embedded-JSON trailingPE pattern and replace only when that parses with
raw above 10; in every other case the map is unchanged. -/
def reconcileTrailingPE (m : List (String × TypedVal))
    (jsonF : String → Option TypedVal) : List (String × TypedVal) :=
  match lookupField m "trailingPE" with
  | some tv =>
    if rawLt tv 10 then
      match jsonF "trailingPE" with
      | some peData => if rawGt peData 10 then setField m "trailingPE" peData else m
      | none => m
    else m
  | none => m

/-- Whole summaryData object built by extractSummaryData before the final
emptiness check: DOM pass, additional-metrics pass, embedded-JSON pass,
trailingPE plausibility pass. -/
def buildSummaryData (streamers : List FinStreamer)
    (addl : String → Option String) (jsonF : String → Option TypedVal) :
    List (String × TypedVal) :=
  reconcileTrailingPE
    (applyJsonFields jsonF (applyAdditionalMetrics addl (applyFinStreamers streamers [])))
    jsonF

/-- Translation of extractSummaryData (pure core, document abstracted as
the three per-pattern-family capture maps): the built object is returned
when it has at least one key and null otherwise; the surrounding
try/catch means the function never throws (totality of this model). -/
def extractSummaryData (streamers : List FinStreamer)
    (addl : String → Option String) (jsonF : String → Option TypedVal) :
    Option (List (String × TypedVal)) :=
  let summaryData := buildSummaryData streamers addl jsonF
  if 0 < summaryData.length then some summaryData else none

/-- Canonical summary row: unwrapped primitives only, absent as none. -/
structure StockSummaryRow where
  symbol : String
  market_cap : Option JSNum
  enterprise_value : Option JSNum
  shares_outstanding : Option JSNum
  beta : Option JSNum
  trailing_pe : Option JSNum
  forward_pe : Option JSNum
  trailing_eps : Option JSNum
  forward_eps : Option JSNum
  enterprise_to_ebitda : Option JSNum
  enterprise_to_revenue : Option JSNum
  peg_ratio : Option JSNum
  currency : String
  report_date : String
deriving DecidableEq

/-- Translation of toStockSummaryRow; the call-time date is passed
explicitly.  No currency key is ever stored by extractSummaryData, so the
currency JS-or defaults to USD. -/
def toStockSummaryRow (symbol : String) (summaryData : List (String × TypedVal))
    (currentDate : String) : StockSummaryRow :=
  let fieldVal := fun k => getValue ((lookupField summaryData k).map .obj)
  { symbol := symbol.toUpper
    market_cap := fieldVal "marketCap"
    enterprise_value := fieldVal "enterpriseValue"
    shares_outstanding := fieldVal "sharesOutstanding"
    beta := fieldVal "beta"
    trailing_pe := fieldVal "trailingPE"
    forward_pe := fieldVal "forwardPE"
    trailing_eps := fieldVal "trailingEps"
    forward_eps := fieldVal "forwardEps"
    enterprise_to_ebitda := fieldVal "enterpriseToEbitda"
    enterprise_to_revenue := fieldVal "enterpriseToRevenue"
    peg_ratio := fieldVal "pegRatio"
    currency := "USD"
    report_date := currentDate }

/-! ## Asset-profile extraction (extractAssetProfile) and its row builder -/

/-- Field names of the fieldPatterns table of extractAssetProfile, in
source order. -/
def profileFieldNames : List String :=
  ["address1", "city", "state", "zip", "country", "phone", "website",
   "industry", "sector", "longBusinessSummary", "fullTimeEmployees"]

/-- Profile result object built by extractAssetProfile: one optional
entry per field pattern, fullTimeEmployees parsed as an integer.  The
raw JSON blob is abstracted as a map from field name to the text captured
by that field pattern (each pattern keys on a distinct literal name). -/
structure AssetProfile where
  address1 : Option String
  city : Option String
  state : Option String
  zip : Option String
  country : Option String
  phone : Option String
  website : Option String
  industry : Option String
  sector : Option String
  longBusinessSummary : Option String
  fullTimeEmployees : Option ℕ
deriving DecidableEq

/-- Field-by-field construction of the extractAssetProfile result from
the per-field captures. -/
def buildAssetProfile (doc : String → Option String) : AssetProfile :=
  { address1 := doc "address1"
    city := doc "city"
    state := doc "state"
    zip := doc "zip"
    country := doc "country"
    phone := doc "phone"
    website := doc "website"
    industry := doc "industry"
    sector := doc "sector"
    longBusinessSummary := doc "longBusinessSummary"
    fullTimeEmployees := (doc "fullTimeEmployees").map parseIntDigits }

/-- Number of keys of the extractAssetProfile result object: one per field
pattern that matched. -/
def profileKeyCount (doc : String → Option String) : ℕ :=
  (profileFieldNames.filter (fun f => (doc f).isSome)).length

/-- Translation of extractAssetProfile (pure core): the result object is
returned only when strictly more than 5 field patterns matched, and null
otherwise; the surrounding try/catch means the function never throws.
(The earlier page gates of the source - the address1/fullTimeEmployees
substring checks and the blob regex - only produce further null returns
on documents where no field capture exists, covered by the all-absent
capture map.) -/
def extractAssetProfile (doc : String → Option String) : Option AssetProfile :=
  if 5 < profileKeyCount doc then some (buildAssetProfile doc) else none

/-- Canonical profile row. -/
structure StockProfileRow where
  symbol : String
  address : Option String
  city : Option String
  country : Option String
  phone : Option String
  zip : Option String
  industry : String
  sector : String
  long_business_summary : String
  full_time_employees : Option ℕ
  report_date : String
deriving DecidableEq

/-- JavaScript value-or-null on an optional string (empty string is
falsy and becomes null). -/
def jsStrOrNone (v : Option String) : Option String :=
  match v with
  | some s => if s = "" then none else some s
  | none => none

/-- JavaScript value-or-default on an optional string (empty string is
falsy and takes the default). -/
def jsStrOrDefault (v : Option String) (d : String) : String :=
  match v with
  | some s => if s = "" then d else s
  | none => d

/-- JavaScript value-or-null on an optional count (zero is falsy and
becomes null). -/
def jsNatOrNone (v : Option ℕ) : Option ℕ :=
  match v with
  | some n => if n = 0 then none else some n
  | none => none

/-- Translation of toStockProfileRow; the call-time date is passed
explicitly. -/
def toStockProfileRow (symbol : String) (assetProfile : AssetProfile)
    (currentDate : String) : StockProfileRow :=
  { symbol := symbol.toUpper
    address := jsStrOrNone assetProfile.address1
    city := jsStrOrNone assetProfile.city
    country := jsStrOrNone assetProfile.country
    phone := jsStrOrNone assetProfile.phone
    zip := jsStrOrNone assetProfile.zip
    industry := jsStrOrDefault assetProfile.industry "Information not available"
    sector := jsStrOrDefault assetProfile.sector "Information not available"
    long_business_summary :=
      jsStrOrDefault assetProfile.longBusinessSummary
        "Company information extracted from page metadata"
    full_time_employees := jsNatOrNone assetProfile.fullTimeEmployees
    report_date := currentDate }

/-- Translation of fetchYahooProfile: a null extraction throws the
could-not-extract error to the caller, otherwise the profile row is
built. -/
def fetchYahooProfile (symbol : String) (doc : String → Option String)
    (currentDate : String) : Except String StockProfileRow :=
  match extractAssetProfile doc with
  | none => .error "Could not extract company profile data from Yahoo Finance page"
  | some profile => .ok (toStockProfileRow symbol profile currentDate)

/-- Translation of fetchYahooSummary: a null extraction throws the
could-not-extract error to the caller, otherwise the summary row is
built. -/
def fetchYahooSummary (symbol : String) (streamers : List FinStreamer)
    (addl : String → Option String) (jsonF : String → Option TypedVal)
    (currentDate : String) : Except String StockSummaryRow :=
  match extractSummaryData streamers addl jsonF with
  | none => .error "Could not extract financial summary data from Yahoo Finance page"
  | some summaryData => .ok (toStockSummaryRow symbol summaryData currentDate)

/-! ## FRED observations, economic indicators (extractEconomicData) -/

/-- One raw observation of a FRED JSON response; the value is the literal
observation string, with null represented as none (the upstream also uses
the placeholder string instead of null for missing values). -/
structure RawObs where
  date : String
  value : Option String
  realtime_start : String
  realtime_end : String
deriving DecidableEq

/-- Validity test applied to observation values throughout the source
(value not the placeholder dot string and not null). -/
def isValidObsValue (v : Option String) : Bool :=
  match v with
  | some s => decide (s ≠ ".")
  | none => false

/-- Outcome of the primary FRED request for one indicator: the axios call
threw (transport, timeout, non-2xx), or a response whose observation
array is as given (a missing or empty array is the empty list, which the
source treats identically). -/
inductive FredAttempt where
  | failure : FredAttempt
  | success : List RawObs → FredAttempt
deriving DecidableEq

/-- Outcome of the Yahoo fallback request for a treasury indicator: the
axios call threw, or a page whose regularMarketPrice regex capture is as
given (none when the pattern does not match). -/
inductive YahooAttempt where
  | failure : YahooAttempt
  | success : Option String → YahooAttempt
deriving DecidableEq

/-- One entry of the results object of extractEconomicData (the date and
realtime metadata fields, stamped from the response or the call time, are
elided as presentation). -/
structure IndicatorResult where
  value : JSNum
  seriesId : String
  source : Option String
deriving DecidableEq

/-- Treasury fallback symbol map of extractEconomicData, with its JS-or
default. -/
def treasurySymbolMap : List (String × String) :=
  [("treasury1m", "^IRX"), ("treasury3m", "^IRX"), ("treasury6m", "^IRX"),
   ("treasury1y", "^TNX"), ("treasury2y", "^TNX"), ("treasury5y", "^TNX"),
   ("treasury10y", "^TNX"), ("treasury30y", "^TYX")]

/-- Fallback symbol for a treasury key (defaulting to the ten-year note). -/
def treasuryFallbackSymbol (key : String) : String :=
  ((treasurySymbolMap.find? (fun p => p.1 = key)).map (·.2)).getD "^TNX"

/-- Translation of the per-indicator worker of extractEconomicData: on a
successful response with a non-empty observation array, the first valid
observation is parsed and stored; on a thrown primary request, and only
then, keys containing the treasury substring attempt the Yahoo fallback,
whose own failure or non-matching page leaves the key absent (the
fallback catch swallows the error). -/
def fetchIndicatorValue (key seriesId : String) (primary : FredAttempt)
    (fallback : YahooAttempt) : Option IndicatorResult :=
  match primary with
  | .success obs =>
    if 0 < obs.length then
      match obs.find? (fun o => isValidObsValue o.value) with
      | some latestObs =>
        some ⟨parseFloatChars (latestObs.value.getD "").data, seriesId, none⟩
      | none => none
    else none
  | .failure =>
    if stringIncludes key "treasury" then
      match fallback with
      | .failure => none
      | .success priceCapture =>
        match priceCapture with
        | some priceStr =>
          some ⟨parseFloatChars priceStr.data, treasuryFallbackSymbol key,
                some "yahoo_finance"⟩
        | none => none
    else none

/-- Instrumentation of fetchIndicatorValue recording whether the Yahoo
fallback request is issued on a given run: exactly on the thrown-primary
branch for a key containing the treasury substring. -/
def fallbackInvoked (key : String) (primary : FredAttempt) : Bool :=
  match primary with
  | .failure => stringIncludes key "treasury"
  | .success _ => false

/-! ## Batch scheduling of extractEconomicData -/

/-- Consecutive groups of size c taken by the batched for-loop
(slice of the entry list from i to i plus c, i stepping by c); the
source fixes c to the concurrency cap 5. -/
def batchChunks (c : ℕ) : List α → List (List α)
  | [] => []
  | a :: l => (a :: l.take (c - 1)) :: batchChunks c (l.drop (c - 1))
termination_by l => l.length
decreasing_by simp [List.length_drop]; omega

/-- Sequential processing of the groups: each group maps its items
through the worker (a worker returning none models a caught per-item
failure or a valueless response), all items of a group settle before the
next group is touched, and the inter-batch delay counter increments
exactly once after each non-final group. -/
def processChunks (w : κ → Option V) : List (List κ) → List (κ × V) × ℕ
  | [] => ([], 0)
  | g :: rest =>
    let gRes := g.filterMap (fun k => (w k).map (fun v => (k, v)))
    match rest with
    | [] => (gRes, 0)
    | r :: rs =>
      let tail := processChunks w (r :: rs)
      (gRes ++ tail.1, tail.2 + 1)

/-- The batched fetch loop of extractEconomicData over an item list:
resulting key/value accumulation and number of inter-batch delays. -/
def runBatched (c : ℕ) (items : List κ) (w : κ → Option V) : List (κ × V) × ℕ :=
  processChunks w (batchChunks c items)

/-- Events of one batched run, used to state the scheduling shape. -/
inductive BatchEvent (κ : Type) where
  | settled : κ → BatchEvent κ
  | interBatchDelay : BatchEvent κ
deriving DecidableEq

/-- Event trace of the batched loop: the settlement events of each group
followed, between groups only, by the delay event. -/
def chunkTrace : List (List κ) → List (BatchEvent κ)
  | [] => []
  | g :: rest =>
    g.map .settled ++
      (match rest with
       | [] => []
       | r :: rs => BatchEvent.interBatchDelay :: chunkTrace (r :: rs))

/-- Worker override forcing the single item j to fail. -/
def failAt [DecidableEq κ] (j : κ) (w : κ → Option V) : κ → Option V :=
  fun k => if k = j then none else w k

/-- Accumulated results object of extractEconomicData, one optional entry
per indicator key, each produced independently from that key's own
primary and fallback outcomes. -/
def economicResults (keys : List (String × String)) (prim : String → FredAttempt)
    (fb : String → YahooAttempt) : List (String × IndicatorResult) :=
  keys.filterMap (fun e => (fetchIndicatorValue e.1 e.2 (prim e.1) (fb e.1)).map (fun r => (e.1, r)))

/-! ## FRED series data (extractFredSeriesData, toFredSeriesRows) -/

/-- Result of extractFredSeriesData (the seriesInfo side request, a
best-effort metadata fetch, is elided as presentation). -/
structure FredSeriesData where
  seriesId : String
  observations : List RawObs
deriving DecidableEq

/-- Translation of the observation-processing core of
extractFredSeriesData: on a response with a non-empty observation array,
keep the valid observations (placeholder and null values filtered out)
up to the limit; otherwise null. -/
def extractFredSeriesData (seriesId : String) (respObs : List RawObs)
    (limit : ℕ) : Option FredSeriesData :=
  if 0 < respObs.length then
    some ⟨seriesId, (respObs.filter (fun o => isValidObsValue o.value)).take limit⟩
  else none

/-- Canonical FRED series row (series metadata strings elided). -/
structure FredSeriesRow where
  series_id : String
  date : String
  value : JSNum
  realtime_start : String
  realtime_end : String
  fetch_date : String
deriving DecidableEq

/-- Translation of toFredSeriesRows: null data gives no rows, otherwise
one row per kept observation with its value run through parseFloat. -/
def toFredSeriesRows (seriesData : Option FredSeriesData) (fetchDate : String) :
    List FredSeriesRow :=
  match seriesData with
  | none => []
  | some sd =>
    sd.observations.map (fun obs =>
      ⟨sd.seriesId, obs.date, parseFloatChars (obs.value.getD "").data,
       obs.realtime_start, obs.realtime_end, fetchDate⟩)

/-! ## Revision analysis of vintage data (analyzeRevisions) -/

/-- One parsed observation of a vintage (as assembled by
fetchFredVintageData after filtering valid values and parsing them). -/
structure VintageObs where
  date : String
  value : ℚ
  realtime_start : String
  realtime_end : String
deriving DecidableEq

/-- One vintage: its upstream vintage date and parsed observations,
most recent first. -/
structure VintageSnapshot where
  vintageDate : String
  observations : List VintageObs
deriving DecidableEq

/-- One computed revision entry. -/
structure Revision where
  date : String
  latestValue : ℚ
  previousValue : ℚ
  revision : ℚ
  revisionPercent : ℚ
  vintageComparison : String
deriving DecidableEq

/-- Result of analyzeRevisions (the numeric formatting of the analysis
text, toFixed, is elided; the branch structure of the text is kept). -/
structure RevisionAnalysis where
  hasRevisions : Bool
  revisions : List Revision
  analysis : String
deriving DecidableEq

/-- Translation of analyzeRevisions: fewer than two vintages give the
insufficient-data result; otherwise, when the two most recent vintages
both have observations, the most recent observation of the latest vintage
is compared with the observation of the previous vintage sharing its
date, producing at most one revision with delta and percent delta. -/
def analyzeRevisions (vintageData : List VintageSnapshot) : RevisionAnalysis :=
  match vintageData with
  | latestVintage :: previousVintage :: _ =>
    let revisions :=
      match latestVintage.observations, previousVintage.observations with
      | latestData :: _, _ :: _ =>
        match previousVintage.observations.find? (fun obs => obs.date = latestData.date) with
        | some matchingPrevious =>
          let revision := latestData.value - matchingPrevious.value
          let revisionPercent := revision / matchingPrevious.value * 100
          [⟨latestData.date, latestData.value, matchingPrevious.value, revision,
            revisionPercent,
            previousVintage.vintageDate ++ " → " ++ latestVintage.vintageDate⟩]
        | none => []
      | _, _ => []
    ⟨decide (0 < revisions.length), revisions,
     if 0 < revisions.length then "Latest revision: "
     else "No revisions detected in recent data"⟩
  | _ => ⟨false, [], "Insufficient data for revision analysis"⟩

/-! ## Stock correlation (extractStockCorrelationData, toCorrelationRows,
fetchStockCorrelation) -/

/-- Regex captures of the per-symbol quote page used by
extractStockCorrelationData.  Every capture group of those patterns
matches a decimal numeral (at least one digit), so the captured text is
modelled by its parseFloat value directly; none means the pattern did not
match the page. -/
structure MetricCaptures where
  price : Option ℚ
  change : Option ℚ
  changePercent : Option ℚ
  beta : Option ℚ
  fiftyTwoWeekHigh : Option ℚ
  fiftyTwoWeekLow : Option ℚ
  volume : Option ℤ
deriving DecidableEq

/-- Per-symbol metrics object after the relative-position step. -/
structure StockMetrics where
  price : Option ℚ
  change : Option ℚ
  changePercent : Option ℚ
  beta : Option ℚ
  fiftyTwoWeekHigh : Option ℚ
  fiftyTwoWeekLow : Option ℚ
  volume : Option ℤ
  relativePosition : Option ℚ
deriving DecidableEq

/-- JavaScript truthiness of an optional number (absent and zero falsy). -/
def qTruthy : Option ℚ → Bool
  | some q => decide (q ≠ 0)
  | none => false

/-- Metrics with no matched pattern (symbol page never fetched). -/
def emptyMetrics : StockMetrics :=
  ⟨none, none, none, none, none, none, none, none⟩

/-- Translation of the per-symbol metric assembly of
extractStockCorrelationData, including the 52-week relative-position
proxy guarded by truthiness of price, high and low. -/
def buildMetrics (m : MetricCaptures) : StockMetrics :=
  { price := m.price
    change := m.change
    changePercent := m.changePercent
    beta := m.beta
    fiftyTwoWeekHigh := m.fiftyTwoWeekHigh
    fiftyTwoWeekLow := m.fiftyTwoWeekLow
    volume := m.volume
    relativePosition :=
      if qTruthy m.price ∧ qTruthy m.fiftyTwoWeekHigh ∧ qTruthy m.fiftyTwoWeekLow then
        some ((m.price.getD 0 - m.fiftyTwoWeekLow.getD 0) /
              (m.fiftyTwoWeekHigh.getD 0 - m.fiftyTwoWeekLow.getD 0))
      else none }

/-- Heuristic pairwise correlation of extractStockCorrelationData before
clamping: base 0.1 plus beta-similarity, performance-similarity and
range-position-similarity contributions (each floored at 0 by Math.max). -/
def rawPairCorrelation (data1 data2 : StockMetrics) : ℚ :=
  let c0 : ℚ := 1 / 10
  let c1 :=
    if qTruthy data1.beta ∧ qTruthy data2.beta then
      c0 + max 0 ((2 - |data1.beta.getD 0 - data2.beta.getD 0|) / 2) * (3 / 10)
    else c0
  let c2 :=
    if data1.changePercent.isSome ∧ data2.changePercent.isSome then
      c1 + max 0 ((10 - |data1.changePercent.getD 0 - data2.changePercent.getD 0|) / 10) * (3 / 10)
    else c1
  if qTruthy data1.relativePosition ∧ qTruthy data2.relativePosition then
    c2 + max 0 (1 - |data1.relativePosition.getD 0 - data2.relativePosition.getD 0|) * (2 / 10)
  else c2

/-- JavaScript Math.round of a scaled value, divided back: round half
toward positive infinity at the third decimal. -/
def jsRound1000 (q : ℚ) : ℚ := ((⌊q * 1000 + 1 / 2⌋ : ℤ) : ℚ) / 1000

/-- Off-diagonal matrix entry: the heuristic correlation clamped into the
interval from minus 0.5 to 0.95 and rounded to three decimals. -/
def pairCorrelationEntry (data1 data2 : StockMetrics) : ℚ :=
  jsRound1000 (min (95 / 100) (max (-(1 / 2)) (rawPairCorrelation data1 data2)))

/-- Correlation-matrix entry for a pair of valid symbols: exactly 1 on
the diagonal (the valid-symbol list has no duplicate keys, so equal index
and equal symbol coincide), the clamped rounded heuristic otherwise. -/
def matrixValue (pd : String → StockMetrics) (symbol1 symbol2 : String) : ℚ :=
  if symbol1 = symbol2 then 1 else pairCorrelationEntry (pd symbol1) (pd symbol2)

/-- Insertion-ordered key set of a JS object indexed in the given order
(first occurrence kept, later assignments overwrite in place). -/
def objKeys (ks : List String) : List String :=
  ks.foldl (fun acc k => if k ∈ acc then acc else acc ++ [k]) []

/-- Keys of the priceData object: the symbols whose page fetch did not
throw, in first-fetch order. -/
def validSymbolsOf (symbols : List String) (fetch : String → Option MetricCaptures) :
    List String :=
  objKeys (symbols.filter (fun s => (fetch s).isSome))

/-- The priceData object as a total lookup (only ever read at valid
symbols). -/
def priceDataOf (fetch : String → Option MetricCaptures) : String → StockMetrics :=
  fun s =>
    match fetch s with
    | some m => buildMetrics m
    | none => emptyMetrics

/-- Result object of extractStockCorrelationData (the analysis date is
passed in as the call-time date). -/
structure CorrelationData where
  symbols : List String
  priceData : String → StockMetrics
  correlationMatrix : String → String → ℚ
  analysisDate : String

/-- Inner body of extractStockCorrelationData, before its surrounding
try/catch: the minimum-symbol precondition throws, then one page fetch
per requested symbol (throwing fetches are caught per symbol and the
symbol skipped), then the matrix over the valid symbols; a wholly empty
matrix yields null.  The second component counts the network requests
issued. -/
def extractStockCorrelationDataCore (symbols : List String)
    (fetch : String → Option MetricCaptures) (today : String) :
    Except String (Option CorrelationData) × ℕ :=
  if symbols.length < 2 then
    (.error "Need at least 2 symbols for correlation analysis", 0)
  else
    let valid := validSymbolsOf symbols fetch
    let pd := priceDataOf fetch
    if 0 < valid.length then
      (.ok (some ⟨valid, pd, matrixValue pd, today⟩), symbols.length)
    else (.ok none, symbols.length)

/-- Translation of extractStockCorrelationData: the try/catch turns every
thrown error, including the minimum-symbol precondition, into a null
return. -/
def extractStockCorrelationData (symbols : List String)
    (fetch : String → Option MetricCaptures) (today : String) :
    Option CorrelationData × ℕ :=
  match extractStockCorrelationDataCore symbols fetch today with
  | (.error _, n) => (none, n)
  | (.ok r, n) => (r, n)

/-- One canonical correlation row (JS-or on the price and change-percent
fields turns absent and zero into null). -/
structure CorrelationRow where
  symbol_1 : String
  symbol_2 : String
  correlation : ℚ
  symbol_1_price : Option ℚ
  symbol_2_price : Option ℚ
  symbol_1_change_percent : Option ℚ
  symbol_2_change_percent : Option ℚ
  analysis_date : String
deriving DecidableEq

/-- JavaScript value-or-null on an optional rational (zero is falsy and
becomes null). -/
def jsQOrNone (v : Option ℚ) : Option ℚ :=
  match v with
  | some q => if q = 0 then none else some q
  | none => none

/-- Translation of toCorrelationRows: null data gives no rows; otherwise
the double loop over the valid symbols emits one row per ordered pair of
distinct symbols. -/
def toCorrelationRows (correlationData : Option CorrelationData) : List CorrelationRow :=
  match correlationData with
  | none => []
  | some cd =>
    (cd.symbols.map (fun symbol1 =>
      (cd.symbols.filter (fun symbol2 => decide (symbol1 ≠ symbol2))).map
        (fun symbol2 =>
          { symbol_1 := symbol1
            symbol_2 := symbol2
            correlation := cd.correlationMatrix symbol1 symbol2
            symbol_1_price := jsQOrNone (cd.priceData symbol1).price
            symbol_2_price := jsQOrNone (cd.priceData symbol2).price
            symbol_1_change_percent := jsQOrNone (cd.priceData symbol1).changePercent
            symbol_2_change_percent := jsQOrNone (cd.priceData symbol2).changePercent
            analysis_date := cd.analysisDate }))).flatten

/-- Translation of fetchStockCorrelation: the minimum-symbol precondition
is rethrown to the caller before any page fetch; a null extraction result
throws the could-not-extract error; otherwise the rows are built.  The
second component counts the network requests issued. -/
def fetchStockCorrelation (symbols : List String)
    (fetch : String → Option MetricCaptures) (today : String) :
    Except String (List CorrelationRow) × ℕ :=
  if symbols.length < 2 then
    (.error "Need at least 2 symbols for correlation analysis", 0)
  else
    match extractStockCorrelationData symbols fetch today with
    | (none, n) => (.error "Could not extract correlation data", n)
    | (some cd, n) => (.ok (toCorrelationRows (some cd)), n)

/-! ## Helper lemmas on character scans -/

/-- A list whose head, when present, fails the predicate. -/
def HeadFails (p : Char → Bool) (l : List Char) : Prop :=
  ∀ c t, l = c :: t → p c = false

theorem headFails_nil (p : Char → Bool) : HeadFails p [] := by
  intro c t h
  cases h

theorem headFails_cons {p : Char → Bool} {c : Char} (t : List Char)
    (h : p c = false) : HeadFails p (c :: t) := by
  intro d s hd
  cases hd
  exact h

theorem takeWhile_all_append {p : Char → Bool} (l1 l2 : List Char)
    (h1 : ∀ c ∈ l1, p c = true) (h2 : HeadFails p l2) :
    (l1 ++ l2).takeWhile p = l1 := by
  induction l1 with
  | nil =>
    simp only [List.nil_append]
    cases l2 with
    | nil => rfl
    | cons c t => simp [List.takeWhile_cons, h2 c t rfl]
  | cons a l ih =>
    have ha : p a = true := h1 a (by simp)
    simp only [List.cons_append, List.takeWhile_cons, ha]
    simp [ih (fun c hc => h1 c (by simp [hc]))]

theorem dropWhile_all_append {p : Char → Bool} (l1 l2 : List Char)
    (h1 : ∀ c ∈ l1, p c = true) (h2 : HeadFails p l2) :
    (l1 ++ l2).dropWhile p = l2 := by
  induction l1 with
  | nil =>
    simp only [List.nil_append]
    cases l2 with
    | nil => rfl
    | cons c t => simp [List.dropWhile_cons, h2 c t rfl]
  | cons a l ih =>
    have ha : p a = true := h1 a (by simp)
    simp only [List.cons_append, List.dropWhile_cons, ha]
    exact ih (fun c hc => h1 c (by simp [hc]))

theorem afterDot_of_headFails {l : List Char}
    (h : ∀ c t, l = c :: t → c ≠ '.') : afterDot l = none := by
  cases l with
  | nil => rfl
  | cons c t => simp [afterDot, h c t rfl]

theorem digit_ne_of (c x : Char) (h : isDigitChar c = true)
    (hx : isDigitChar x = false) : c ≠ x := by
  intro e
  subst e
  rw [h] at hx
  cases hx

theorem digit_isNumChar {c : Char} (h : isDigitChar c = true) :
    isNumChar c = true := by
  simp [isNumChar, h]

/-- Evaluation of parseFloat on an integer numeral followed by a
non-numeric tail, exactly as the source feeds it. -/
theorem parseFloatChars_int (ints tail : List Char) (hne : ints ≠ [])
    (hds : ∀ c ∈ ints, isDigitChar c = true)
    (htail : ∀ c t, tail = c :: t → isDigitChar c = false ∧ c ≠ '.') :
    parseFloatChars (ints ++ tail) = .val (digitsToNat ints) := by
  obtain ⟨c, cs, rfl⟩ : ∃ c cs, ints = c :: cs := by
    cases ints with
    | nil => exact absurd rfl hne
    | cons c cs => exact ⟨c, cs, rfl⟩
  have hc : isDigitChar c = true := hds c (by simp)
  have hsp : ¬(c = ' ') := digit_ne_of c ' ' hc (by decide)
  have hm : ¬(c = '-') := digit_ne_of c '-' hc (by decide)
  have hp : ¬(c = '+') := digit_ne_of c '+' hc (by decide)
  have htake : ((c :: cs) ++ tail).takeWhile isDigitChar = c :: cs :=
    takeWhile_all_append _ _ hds (fun d t hdt => (htail d t hdt).1)
  have hdrop : ((c :: cs) ++ tail).dropWhile isDigitChar = tail :=
    dropWhile_all_append _ _ hds (fun d t hdt => (htail d t hdt).1)
  have hdot : afterDot tail = none :=
    afterDot_of_headFails (fun d t hdt => (htail d t hdt).2)
  have h1 : ((c :: cs) ++ tail).dropWhile (fun x => x = ' ') = (c :: cs) ++ tail := by
    rw [List.cons_append, List.dropWhile_cons]
    simp [hsp]
  have h2 : stripSign ((c :: cs) ++ tail) = (1, (c :: cs) ++ tail) := by
    rw [List.cons_append]
    simp only [stripSign]
    rw [if_neg hm, if_neg hp]
  simp only [parseFloatChars, h1, h2, htake, hdrop, hdot]
  simp

/-- Evaluation of parseFloat on a decimal numeral followed by a
non-numeric tail. -/
theorem parseFloatChars_dec (ints frs tail : List Char) (hne : ints ≠ [])
    (hds : ∀ c ∈ ints, isDigitChar c = true)
    (hfs : ∀ c ∈ frs, isDigitChar c = true)
    (htail : ∀ c t, tail = c :: t → isDigitChar c = false) :
    parseFloatChars (ints ++ '.' :: (frs ++ tail)) =
      .val ((digitsToNat ints : ℚ) + (digitsToNat frs : ℚ) / (10 : ℚ) ^ frs.length) := by
  obtain ⟨c, cs, rfl⟩ : ∃ c cs, ints = c :: cs := by
    cases ints with
    | nil => exact absurd rfl hne
    | cons c cs => exact ⟨c, cs, rfl⟩
  have hc : isDigitChar c = true := hds c (by simp)
  have hsp : ¬(c = ' ') := digit_ne_of c ' ' hc (by decide)
  have hm : ¬(c = '-') := digit_ne_of c '-' hc (by decide)
  have hp : ¬(c = '+') := digit_ne_of c '+' hc (by decide)
  have hdotfail : HeadFails isDigitChar ('.' :: (frs ++ tail)) :=
    headFails_cons _ (by decide)
  have htake : ((c :: cs) ++ '.' :: (frs ++ tail)).takeWhile isDigitChar = c :: cs :=
    takeWhile_all_append _ _ hds hdotfail
  have hdrop : ((c :: cs) ++ '.' :: (frs ++ tail)).dropWhile isDigitChar =
      '.' :: (frs ++ tail) :=
    dropWhile_all_append _ _ hds hdotfail
  have htake2 : (frs ++ tail).takeWhile isDigitChar = frs :=
    takeWhile_all_append _ _ hfs htail
  have h1 : ((c :: cs) ++ '.' :: (frs ++ tail)).dropWhile (fun x => x = ' ') =
      (c :: cs) ++ '.' :: (frs ++ tail) := by
    rw [List.cons_append, List.dropWhile_cons]
    simp [hsp]
  have h2 : stripSign ((c :: cs) ++ '.' :: (frs ++ tail)) =
      (1, (c :: cs) ++ '.' :: (frs ++ tail)) := by
    rw [List.cons_append]
    simp only [stripSign]
    rw [if_neg hm, if_neg hp]
  have h3 : afterDot ('.' :: (frs ++ tail)) = some (frs ++ tail) := by
    simp [afterDot]
  simp only [parseFloatChars, h1, h2, htake, hdrop, h3, htake2]
  simp

/-- Evaluation of the magnitude regex match when the text starts with its
numeral: the captured run is the numeral and the suffix group inspects
the first tail character. -/
theorem findNumMatch_eval (run tail : List Char) (hne : run ≠ [])
    (hnc : ∀ c ∈ run, isNumChar c = true)
    (htail : ∀ c t, tail = c :: t → isNumChar c = false) :
    findNumMatch (run ++ tail) = some (run, suffixOf tail) := by
  obtain ⟨c, cs, rfl⟩ : ∃ c cs, run = c :: cs := by
    cases run with
    | nil => exact absurd rfl hne
    | cons c cs => exact ⟨c, cs, rfl⟩
  have hc : isNumChar c = true := hnc c (by simp)
  have htake : ((c :: cs) ++ tail).takeWhile isNumChar = c :: cs :=
    takeWhile_all_append _ _ hnc htail
  have hdrop : ((c :: cs) ++ tail).dropWhile isNumChar = tail :=
    dropWhile_all_append _ _ hnc htail
  rw [List.cons_append, findNumMatch, ← List.cons_append, htake, hdrop]
  simp [hc]

/-- String-literal disequality transfer: a string built from characters
is equal to a literal exactly when the character lists agree. -/
theorem mk_eq_iff (l : List Char) (s : String) : String.mk l = s ↔ l = s.data := by
  constructor
  · intro h
    rw [← h]
  · intro h
    cases s
    simp [h]

/-- A nonempty all-digit run [with optional dot positions] never spells
one of the placeholder literals. -/
theorem numeral_ne_placeholder (l : List Char) (c : Char) (hc : c ∈ l)
    (h : isDigitChar c = true) :
    String.mk l ≠ "" ∧ String.mk l ≠ "--" ∧ String.mk l ≠ "N/A" := by
  have d1 : ("" : String).data = [] := rfl
  have d2 : ("--" : String).data = ['-', '-'] := rfl
  have d3 : ("N/A" : String).data = ['N', '/', 'A'] := rfl
  refine ⟨?_, ?_, ?_⟩ <;> intro he <;> rw [mk_eq_iff] at he <;> subst he
  · rw [d1] at hc
    cases hc
  · rw [d2] at hc
    simp only [List.mem_cons, List.not_mem_nil, or_false] at hc
    rcases hc with h1 | h1 <;> rw [h1] at h <;> exact absurd h (by decide)
  · rw [d3] at hc
    simp only [List.mem_cons, List.not_mem_nil, or_false] at hc
    rcases hc with h1 | h1 | h1 <;> rw [h1] at h <;> exact absurd h (by decide)

theorem data_mk (l : List Char) : (String.mk l).data = l := rfl

theorem not_mem_decNumeral {ints frs : List Char} (x : Char)
    (hi : ∀ c ∈ ints, isDigitChar c = true) (hf : ∀ c ∈ frs, isDigitChar c = true)
    (hxd : isDigitChar x = false) (hxdot : x ≠ '.') :
    x ∉ ints ++ '.' :: frs := by
  intro hmem
  rcases List.mem_append.mp hmem with h1 | h1
  · rw [hi x h1] at hxd
    cases hxd
  · rcases List.mem_cons.mp h1 with h2 | h2
    · exact hxdot h2
    · rw [hf x h2] at hxd
      cases hxd

theorem not_mem_intNumeral {ints : List Char} (x : Char)
    (hi : ∀ c ∈ ints, isDigitChar c = true) (hxd : isDigitChar x = false) :
    x ∉ ints := by
  intro hmem
  rw [hi x hmem] at hxd
  cases hxd

/-- Evaluation of parseRevenueValue on a string beginning with a numeral:
the placeholder guards fail, the regex captures the numeral and the
following suffix position, and the result is the parsed numeral scaled by
the suffix multiplier. -/
theorem parseRevenueValue_eval (run tail : List Char) (v : ℚ) (c0 : Char)
    (h0 : c0 ∈ run) (h0d : isDigitChar c0 = true) (hne : run ≠ [])
    (hnc : ∀ c ∈ run, isNumChar c = true)
    (htail : ∀ c t, tail = c :: t → isNumChar c = false)
    (hpf : parseFloatChars run = .val v) :
    parseRevenueValue (String.mk (run ++ tail)) =
      some (.val (v * suffixMultipliers (suffixOf tail))) := by
  have hg := numeral_ne_placeholder (run ++ tail) c0 (List.mem_append_left _ h0) h0d
  rw [parseRevenueValue, if_neg (by push_neg; exact ⟨hg.1, hg.2.1, hg.2.2⟩)]
  rw [data_mk, findNumMatch_eval run tail hne hnc htail]
  simp only [hpf, JSNum.mul]

/-- Evaluation of the formatted branch of getValue on a string beginning
with a numeral. -/
theorem fmtStringValue_eval (run tail : List Char) (v : ℚ) (hne : run ≠ [])
    (hnc : ∀ c ∈ run, isNumChar c = true)
    (htail : ∀ c t, tail = c :: t → isNumChar c = false)
    (hpf : parseFloatChars run = .val v) :
    fmtStringValue (String.mk (run ++ tail)) =
      some (.val (v * suffixMultipliers (suffixOf tail))) := by
  rw [fmtStringValue, data_mk, findNumMatch_eval run tail hne hnc htail]
  simp only [hpf, JSNum.mul]

/-- Evaluation of parseFinancialValue on a comma-free numeric string: the
falsy and placeholder guards fail and the result is the parseFloat of the
whole string scaled by the first unit letter it contains in the order T,
B, M, K (the source has no G case). -/
theorem parseFinancialValue_eval (l : List Char) (v : ℚ) (c0 : Char)
    (h0 : c0 ∈ l) (h0d : isDigitChar c0 = true)
    (hnc : ∀ a ∈ l, a ≠ ',') (hpf : parseFloatChars l = .val v) :
    parseFinancialValue (some (String.mk l)) "" =
      some (.val (v *
        (if 'T' ∈ l then 1000000000000
         else if 'B' ∈ l then 1000000000
         else if 'M' ∈ l then 1000000
         else if 'K' ∈ l then 1000 else 1))) := by
  have hg := numeral_ne_placeholder l c0 h0 h0d
  have hfilter : l.filter (fun c => c ≠ ',') = l := by
    rw [List.filter_eq_self]
    intro a ha
    simpa using hnc a ha
  rw [parseFinancialValue]
  rw [if_neg (by simp [hg.1])]
  have hjs : jsOr (some (String.mk l)) "" = String.mk l := by
    simp [jsOr, hg.1]
  rw [hjs, if_neg (by push_neg; exact ⟨hg.2.1, hg.2.2⟩), data_mk, hfilter]
  by_cases hT : 'T' ∈ l
  · simp [hT, hpf, JSNum.mul]
  · by_cases hB : 'B' ∈ l
    · simp [hT, hB, hpf, JSNum.mul]
    · by_cases hM : 'M' ∈ l
      · simp [hT, hB, hM, hpf, JSNum.mul]
      · by_cases hK : 'K' ∈ l
        · simp [hT, hB, hM, hK, hpf, JSNum.mul]
        · simp [hT, hB, hM, hK, hpf, JSNum.mul]

/-! ## Claim theorems -/

/-- C1: for every vintage list whose two most recent vintages each have
at least one observation and whose latest vintage's most recent
observation has a matching observation date in the previous vintage,
analyzeRevisions computes exactly one Revision, with delta equal to the
latest value minus the previous value and delta percent equal to delta
divided by the previous value times 100 (the 100/103 instance is checked
in the witness). -/
theorem analyzeRevisions_single_revision
    (latestVintage previousVintage : VintageSnapshot) (rest : List VintageSnapshot)
    (latestData : VintageObs) (ltail : List VintageObs)
    (hl : latestVintage.observations = latestData :: ltail)
    (matchingPrevious : VintageObs)
    (hp : previousVintage.observations.find? (fun obs => obs.date = latestData.date) =
      some matchingPrevious) :
    analyzeRevisions (latestVintage :: previousVintage :: rest) =
      ⟨true,
       [⟨latestData.date, latestData.value, matchingPrevious.value,
         latestData.value - matchingPrevious.value,
         (latestData.value - matchingPrevious.value) / matchingPrevious.value * 100,
         previousVintage.vintageDate ++ " → " ++ latestVintage.vintageDate⟩],
       "Latest revision: "⟩ := by
  obtain ⟨p, ps, hpv⟩ : ∃ p ps, previousVintage.observations = p :: ps := by
    cases hpo : previousVintage.observations with
    | nil =>
      rw [hpo] at hp
      cases hp
    | cons p ps => exact ⟨p, ps, rfl⟩
  simp [analyzeRevisions, hl, hpv, hpv ▸ hp]

/-- C2 (amended): for every formatted string consisting of a decimal or
integer numeral followed by a unit suffix, parseRevenueValue and the
formatted-value branch used by toStockSummaryRow scale the numeral by
1e3, 1e6, 1e9, 1e12 for K, M, B, T and by 1e9 for the secondary
B-equivalent G; parseFinancialValue (the parser used by
extractSummaryData) scales K, M, B, T identically but has no G case and
leaves a G-suffixed string unscaled; unsuffixed numerals decode unscaled
in all three decoders; and the placeholder tokens decode to absence
(null), never zero, in all three decoders. -/
theorem formattedSuffixDecoding (ints frs : List Char) (suffix : Char)
    (hne : ints ≠ []) (hi : ∀ c ∈ ints, isDigitChar c = true)
    (hf : ∀ c ∈ frs, isDigitChar c = true)
    (hs : suffix ∈ (['K', 'M', 'B', 'T', 'G'] : List Char)) :
    (parseRevenueValue (String.mk ((ints ++ '.' :: frs) ++ [suffix])) =
        some (.val (((digitsToNat ints : ℚ) + (digitsToNat frs : ℚ) / (10 : ℚ) ^ frs.length) *
          suffixMultipliers (some suffix)))
      ∧ parseRevenueValue (String.mk (ints ++ [suffix])) =
        some (.val ((digitsToNat ints : ℚ) * suffixMultipliers (some suffix)))
      ∧ parseRevenueValue (String.mk (ints ++ '.' :: frs)) =
        some (.val ((digitsToNat ints : ℚ) + (digitsToNat frs : ℚ) / (10 : ℚ) ^ frs.length))
      ∧ parseRevenueValue (String.mk ints) = some (.val (digitsToNat ints : ℚ)))
    ∧ (fmtStringValue (String.mk ((ints ++ '.' :: frs) ++ [suffix])) =
        some (.val (((digitsToNat ints : ℚ) + (digitsToNat frs : ℚ) / (10 : ℚ) ^ frs.length) *
          suffixMultipliers (some suffix)))
      ∧ fmtStringValue (String.mk (ints ++ [suffix])) =
        some (.val ((digitsToNat ints : ℚ) * suffixMultipliers (some suffix)))
      ∧ fmtStringValue (String.mk (ints ++ '.' :: frs)) =
        some (.val ((digitsToNat ints : ℚ) + (digitsToNat frs : ℚ) / (10 : ℚ) ^ frs.length))
      ∧ fmtStringValue (String.mk ints) = some (.val (digitsToNat ints : ℚ)))
    ∧ (parseFinancialValue (some (String.mk ((ints ++ '.' :: frs) ++ [suffix]))) "" =
        some (.val (((digitsToNat ints : ℚ) + (digitsToNat frs : ℚ) / (10 : ℚ) ^ frs.length) *
          (if suffix = 'G' then 1 else suffixMultipliers (some suffix))))
      ∧ parseFinancialValue (some (String.mk (ints ++ [suffix]))) "" =
        some (.val ((digitsToNat ints : ℚ) *
          (if suffix = 'G' then 1 else suffixMultipliers (some suffix))))
      ∧ parseFinancialValue (some (String.mk (ints ++ '.' :: frs))) "" =
        some (.val ((digitsToNat ints : ℚ) + (digitsToNat frs : ℚ) / (10 : ℚ) ^ frs.length))
      ∧ parseFinancialValue (some (String.mk ints)) "" =
        some (.val (digitsToNat ints : ℚ)))
    ∧ (parseRevenueValue "--" = none ∧ parseRevenueValue "N/A" = none
      ∧ fmtStringValue "--" = none ∧ fmtStringValue "N/A" = none
      ∧ parseFinancialValue (some "--") "" = none
      ∧ parseFinancialValue (some "N/A") "" = none) := by
  obtain ⟨c0, cs0, rfl⟩ : ∃ c cs, ints = c :: cs := by
    cases ints with
    | nil => exact absurd rfl hne
    | cons c cs => exact ⟨c, cs, rfl⟩
  set ints := c0 :: cs0 with hints
  have h0 : c0 ∈ ints := by simp [hints]
  have h0d : isDigitChar c0 = true := hi c0 h0
  have hsd : isDigitChar suffix = false := by fin_cases hs <;> decide
  have hsdot : suffix ≠ '.' := by fin_cases hs <;> decide
  have hsnum : isNumChar suffix = false := by fin_cases hs <;> decide
  have hscomma : suffix ≠ ',' := by fin_cases hs <;> decide
  have hmemB : suffix ∈ (['B', 'K', 'M', 'G', 'T'] : List Char) := by
    fin_cases hs <;> decide
  have hsufOf : suffixOf [suffix] = some suffix := by simp [suffixOf, hmemB]
  have hsufNone : suffixOf ([] : List Char) = none := rfl
  have hdn_ne : ints ++ '.' :: frs ≠ [] := by simp [hints]
  have hdn_num : ∀ c ∈ ints ++ '.' :: frs, isNumChar c = true := by
    intro c hc
    rcases List.mem_append.mp hc with h1 | h1
    · exact digit_isNumChar (hi c h1)
    · rcases List.mem_cons.mp h1 with h2 | h2
      · rw [h2]; decide
      · exact digit_isNumChar (hf c h2)
  have hin_num : ∀ c ∈ ints, isNumChar c = true := fun c hc => digit_isNumChar (hi c hc)
  have htail1 : ∀ c t, ([suffix] : List Char) = c :: t → isNumChar c = false := by
    intro c t h
    cases h
    exact hsnum
  have htail0 : ∀ c t, ([] : List Char) = c :: t → isNumChar c = false := by
    intro c t h
    cases h
  have hpf2 : parseFloatChars (ints ++ '.' :: frs) =
      .val ((digitsToNat ints : ℚ) + (digitsToNat frs : ℚ) / (10 : ℚ) ^ frs.length) := by
    have := parseFloatChars_dec ints frs [] hne hi hf (fun c t h => nomatch h)
    rwa [List.append_nil] at this
  have hpf1 : parseFloatChars ints = .val (digitsToNat ints : ℚ) := by
    have := parseFloatChars_int ints [] hne hi (fun c t h => nomatch h)
    rwa [List.append_nil] at this
  have hassoc : (ints ++ '.' :: frs) ++ [suffix] = ints ++ '.' :: (frs ++ [suffix]) := by
    simp
  have hpf2s : parseFloatChars ((ints ++ '.' :: frs) ++ [suffix]) =
      .val ((digitsToNat ints : ℚ) + (digitsToNat frs : ℚ) / (10 : ℚ) ^ frs.length) := by
    rw [hassoc]
    exact parseFloatChars_dec ints frs [suffix] hne hi hf
      (fun c t h => by cases h; exact hsd)
  have hpf1s : parseFloatChars (ints ++ [suffix]) = .val (digitsToNat ints : ℚ) :=
    parseFloatChars_int ints [suffix] hne hi
      (fun c t h => by cases h; exact ⟨hsd, hsdot⟩)
  have hnc2s : ∀ a ∈ (ints ++ '.' :: frs) ++ [suffix], a ≠ ',' := by
    intro a ha
    rcases List.mem_append.mp ha with h1 | h1
    · rcases List.mem_append.mp h1 with h2 | h2
      · exact digit_ne_of a ',' (hi a h2) (by decide)
      · rcases List.mem_cons.mp h2 with h3 | h3
        · rw [h3]; decide
        · exact digit_ne_of a ',' (hf a h3) (by decide)
    · rw [List.mem_singleton.mp h1]
      exact hscomma
  have hnc1s : ∀ a ∈ ints ++ [suffix], a ≠ ',' := by
    intro a ha
    rcases List.mem_append.mp ha with h1 | h1
    · exact digit_ne_of a ',' (hi a h1) (by decide)
    · rw [List.mem_singleton.mp h1]
      exact hscomma
  have hnc2 : ∀ a ∈ ints ++ '.' :: frs, a ≠ ',' := by
    intro a ha
    rcases List.mem_append.mp ha with h1 | h1
    · exact digit_ne_of a ',' (hi a h1) (by decide)
    · rcases List.mem_cons.mp h1 with h2 | h2
      · rw [h2]; decide
      · exact digit_ne_of a ',' (hf a h2) (by decide)
  have hnc1 : ∀ a ∈ ints, a ≠ ',' :=
    fun a ha => digit_ne_of a ',' (hi a ha) (by decide)
  have hnmem2 : ∀ x : Char, isDigitChar x = false → x ≠ '.' → x ≠ suffix →
      x ∉ (ints ++ '.' :: frs) ++ [suffix] := by
    intro x hxd hxdot hxs hm
    rcases List.mem_append.mp hm with h1 | h1
    · exact not_mem_decNumeral x hi hf hxd hxdot h1
    · exact hxs (List.mem_singleton.mp h1)
  have hnmem1 : ∀ x : Char, isDigitChar x = false → x ≠ suffix →
      x ∉ ints ++ [suffix] := by
    intro x hxd hxs hm
    rcases List.mem_append.mp hm with h1 | h1
    · exact not_mem_intNumeral x hi hxd h1
    · exact hxs (List.mem_singleton.mp h1)
  have hmem2 : suffix ∈ (ints ++ '.' :: frs) ++ [suffix] :=
    List.mem_append_right _ (by simp)
  have hmem1 : suffix ∈ ints ++ [suffix] := List.mem_append_right _ (by simp)
  refine ⟨⟨?_, ?_, ?_, ?_⟩, ⟨?_, ?_, ?_, ?_⟩, ⟨?_, ?_, ?_, ?_⟩, ?_, ?_, ?_, ?_, ?_, ?_⟩
  · rw [parseRevenueValue_eval _ [suffix] _ c0
      (List.mem_append_left _ h0) h0d hdn_ne hdn_num htail1 hpf2, hsufOf]
  · rw [parseRevenueValue_eval ints [suffix] _ c0 h0 h0d hne hin_num htail1 hpf1, hsufOf]
  · have := parseRevenueValue_eval (ints ++ '.' :: frs) [] _ c0
      (List.mem_append_left _ h0) h0d hdn_ne hdn_num htail0 hpf2
    rw [List.append_nil] at this
    rw [this, hsufNone]
    norm_num [suffixMultipliers]
  · have := parseRevenueValue_eval ints [] _ c0 h0 h0d hne hin_num htail0 hpf1
    rw [List.append_nil] at this
    rw [this, hsufNone]
    norm_num [suffixMultipliers]
  · rw [fmtStringValue_eval _ [suffix] _ hdn_ne hdn_num htail1 hpf2, hsufOf]
  · rw [fmtStringValue_eval ints [suffix] _ hne hin_num htail1 hpf1, hsufOf]
  · have := fmtStringValue_eval (ints ++ '.' :: frs) [] _ hdn_ne hdn_num htail0 hpf2
    rw [List.append_nil] at this
    rw [this, hsufNone]
    norm_num [suffixMultipliers]
  · have := fmtStringValue_eval ints [] _ hne hin_num htail0 hpf1
    rw [List.append_nil] at this
    rw [this, hsufNone]
    norm_num [suffixMultipliers]
  · rw [parseFinancialValue_eval _ _ c0 (List.mem_append_left _ (List.mem_append_left _ h0))
      h0d hnc2s hpf2s]
    have hni : ∀ x : Char, isDigitChar x = false → x ∉ ints :=
      fun x hx => not_mem_intNumeral x hi hx
    have hnf : ∀ x : Char, isDigitChar x = false → x ∉ frs :=
      fun x hx => not_mem_intNumeral x hf hx
    fin_cases hs <;>
      simp [hni 'T' (by decide), hnf 'T' (by decide), hni 'B' (by decide),
        hnf 'B' (by decide), hni 'M' (by decide), hnf 'M' (by decide),
        hni 'K' (by decide), hnf 'K' (by decide), suffixMultipliers]
  · rw [parseFinancialValue_eval _ _ c0 (List.mem_append_left _ h0) h0d hnc1s hpf1s]
    have hni : ∀ x : Char, isDigitChar x = false → x ∉ ints :=
      fun x hx => not_mem_intNumeral x hi hx
    fin_cases hs <;>
      simp [hni 'T' (by decide), hni 'B' (by decide), hni 'M' (by decide),
        hni 'K' (by decide), suffixMultipliers]
  · rw [parseFinancialValue_eval _ _ c0 (List.mem_append_left _ h0) h0d hnc2 hpf2]
    have hni : ∀ x : Char, isDigitChar x = false → x ∉ ints :=
      fun x hx => not_mem_intNumeral x hi hx
    have hnf : ∀ x : Char, isDigitChar x = false → x ∉ frs :=
      fun x hx => not_mem_intNumeral x hf hx
    simp [hni 'T' (by decide), hnf 'T' (by decide), hni 'B' (by decide),
      hnf 'B' (by decide), hni 'M' (by decide), hnf 'M' (by decide),
      hni 'K' (by decide), hnf 'K' (by decide)]
  · rw [parseFinancialValue_eval _ _ c0 h0 h0d hnc1 hpf1]
    have hni : ∀ x : Char, isDigitChar x = false → x ∉ ints :=
      fun x hx => not_mem_intNumeral x hi hx
    simp [hni 'T' (by decide), hni 'B' (by decide), hni 'M' (by decide),
      hni 'K' (by decide)]
  · simp [parseRevenueValue]
  · simp [parseRevenueValue]
  · simp [fmtStringValue, findNumMatch, isNumChar, isDigitChar]
  · simp [fmtStringValue, findNumMatch, isNumChar, isDigitChar]
  · simp [parseFinancialValue, jsOr]
  · simp [parseFinancialValue, jsOr]

/-- Counterexample to C2 as stated: extractSummaryData's parser
parseFinancialValue does not scale the secondary B-equivalent suffix G;
a G-suffixed numeral decodes to its unscaled magnitude. -/
theorem parseFinancialValue_G_counterexample :
    parseFinancialValue (some "3G") "" = some (.val 3) ∧
    parseFinancialValue (some "3G") "" ≠ some (.val 3000000000) := by
  have h : parseFinancialValue (some "3G") "" = some (.val 3) := by
    simp [parseFinancialValue, jsOr, parseFloatChars, stripSign, afterDot,
      isDigitChar, digitsToNat]
  refine ⟨h, ?_⟩
  rw [h]
  intro he
  have := Option.some.inj he
  have h3 : (3 : ℚ) = 3000000000 := JSNum.val.inj this
  norm_num at h3

/-- Witness for C2: the theorem applied to the numeral 3.00 and the
suffix T, together with 202.71 unsuffixed and a placeholder. -/
theorem formattedSuffixDecoding_witness :
    parseRevenueValue "3.00T" = some (.val 3000000000000) ∧
    fmtStringValue "3.00T" = some (.val 3000000000000) ∧
    parseFinancialValue (some "3.00T") "" = some (.val 3000000000000) ∧
    parseRevenueValue "202.71" = some (.val (20271 / 100)) ∧
    parseRevenueValue "--" = none := by
  have h := formattedSuffixDecoding ['3'] ['0', '0'] 'T'
    (by decide) (by decide) (by decide) (by decide)
  have e1 : String.mk ((['3'] ++ '.' :: ['0', '0']) ++ ['T']) = "3.00T" := by decide
  have h2 := formattedSuffixDecoding ['2', '0', '2'] ['7', '1'] 'K'
    (by decide) (by decide) (by decide) (by decide)
  have e2 : String.mk (['2', '0', '2'] ++ '.' :: ['7', '1']) = "202.71" := by decide
  have d0 : ('0'.toNat - 48 : ℕ) = 0 := by decide
  have d1 : ('1'.toNat - 48 : ℕ) = 1 := by decide
  have d2 : ('2'.toNat - 48 : ℕ) = 2 := by decide
  have d3 : ('3'.toNat - 48 : ℕ) = 3 := by decide
  have d7 : ('7'.toNat - 48 : ℕ) = 7 := by decide
  refine ⟨?_, ?_, ?_, ?_, h.2.2.2.1⟩
  · have := h.1.1
    rw [e1] at this
    rw [this]
    norm_num [digitsToNat, suffixMultipliers, d0, d3]
  · have := h.2.1.1
    rw [e1] at this
    rw [this]
    norm_num [digitsToNat, suffixMultipliers, d0, d3]
  · have := h.2.2.1.1
    rw [e1] at this
    rw [this]
    norm_num [digitsToNat, suffixMultipliers, d0, d3]
    decide
  · have := h2.1.2.2.1
    rw [e2] at this
    rw [this]
    norm_num [digitsToNat, d0, d1, d2, d7]

/-- Witness for C1: the documented instance with previous value 100 and
latest value 103 sharing one observation date yields exactly one revision
with delta 3 and delta percent 3. -/
theorem analyzeRevisions_single_revision_witness :
    analyzeRevisions
      [⟨"2024-02-01", [⟨"2024-01-01", 103, "", ""⟩]⟩,
       ⟨"2024-01-15", [⟨"2024-01-01", 100, "", ""⟩]⟩] =
      ⟨true, [⟨"2024-01-01", 103, 100, 3, 3, "2024-01-15 → 2024-02-01"⟩],
       "Latest revision: "⟩ := by
  rw [analyzeRevisions_single_revision
    ⟨"2024-02-01", [⟨"2024-01-01", 103, "", ""⟩]⟩
    ⟨"2024-01-15", [⟨"2024-01-01", 100, "", ""⟩]⟩
    [] ⟨"2024-01-01", 103, "", ""⟩ [] rfl ⟨"2024-01-01", 100, "", ""⟩ (by simp)]
  norm_num
  decide

/-! ## Batch-scheduling lemmas -/

theorem batchChunks_length {κ : Type} :
    ∀ n (l : List κ), l.length ≤ n → (batchChunks 5 l).length = (l.length + 4) / 5 := by
  intro n
  induction n with
  | zero =>
    intro l hl
    have : l = [] := List.eq_nil_of_length_eq_zero (Nat.le_zero.mp hl)
    subst this
    simp [batchChunks]
  | succ n ih =>
    intro l hl
    cases l with
    | nil => simp [batchChunks]
    | cons a t =>
      rw [batchChunks]
      have hdrop : (t.drop 4).length = t.length - 4 := List.length_drop 4 t
      have hlen : (t.drop 4).length ≤ n := by
        simp at hl
        omega
      have := ih (t.drop 4) hlen
      simp only [List.length_cons, this, hdrop]
      omega

theorem batchChunks_flatten {κ : Type} :
    ∀ n (l : List κ), l.length ≤ n → (batchChunks 5 l).flatten = l := by
  intro n
  induction n with
  | zero =>
    intro l hl
    have : l = [] := List.eq_nil_of_length_eq_zero (Nat.le_zero.mp hl)
    subst this
    simp [batchChunks]
  | succ n ih =>
    intro l hl
    cases l with
    | nil => simp [batchChunks]
    | cons a t =>
      rw [batchChunks]
      have hlen : (t.drop 4).length ≤ n := by
        simp [List.length_drop] at hl ⊢
        omega
      simp only [List.flatten_cons, ih (t.drop 4) hlen]
      simp [List.take_append_drop]

theorem processChunks_results {κ V : Type} (w : κ → Option V) :
    ∀ chunks : List (List κ),
      (processChunks w chunks).1 =
        chunks.flatten.filterMap (fun k => (w k).map (fun v => (k, v))) := by
  intro chunks
  induction chunks with
  | nil => rfl
  | cons g rest ih =>
    cases rest with
    | nil => simp [processChunks]
    | cons r rs =>
      simp only [processChunks]
      rw [List.flatten_cons, List.filterMap_append, ih]

theorem processChunks_delays {κ V : Type} (w : κ → Option V) :
    ∀ chunks : List (List κ), (processChunks w chunks).2 = chunks.length - 1 := by
  intro chunks
  induction chunks with
  | nil => rfl
  | cons g rest ih =>
    cases rest with
    | nil => rfl
    | cons r rs =>
      simp only [processChunks, ih]
      simp

theorem chunkTrace_intercalate {κ : Type} :
    ∀ chunks : List (List κ),
      chunkTrace chunks =
        List.intercalate [BatchEvent.interBatchDelay]
          (chunks.map (fun g => g.map BatchEvent.settled)) := by
  intro chunks
  induction chunks with
  | nil => rfl
  | cons g rest ih =>
    cases rest with
    | nil => simp [chunkTrace, List.intercalate]
    | cons r rs =>
      simp only [chunkTrace, ih]
      simp [List.intercalate, List.intersperse]

theorem settled_mem_chunkTrace {κ : Type} (k : κ) :
    ∀ chunks : List (List κ), ∀ g ∈ chunks, k ∈ g →
      BatchEvent.settled k ∈ chunkTrace chunks := by
  intro chunks
  induction chunks with
  | nil =>
    intro g hg
    cases hg
  | cons g' rest ih =>
    intro g hg hk
    rcases List.mem_cons.mp hg with h1 | h1
    · subst h1
      cases rest <;>
        · simp only [chunkTrace]
          exact List.mem_append_left _ (List.mem_map_of_mem _ hk)
    · cases rest with
      | nil => cases h1
      | cons r rs =>
        simp only [chunkTrace]
        exact List.mem_append_right _ (List.mem_cons_of_mem _ (ih g h1 hk))

theorem filterMap_failAt {κ V : Type} [DecidableEq κ] (w : κ → Option V) (j : κ) :
    ∀ items : List κ,
      items.filterMap (fun k => (failAt j w k).map (fun v => (k, v))) =
        (items.filterMap (fun k => (w k).map (fun v => (k, v)))).filter
          (fun p => decide (p.1 ≠ j)) := by
  intro items
  induction items with
  | nil => rfl
  | cons k t ih =>
    by_cases hk : k = j
    · subst hk
      cases hw : w k with
      | none => simpa [List.filterMap_cons, failAt, hw, List.filter_cons] using ih
      | some v => simpa [List.filterMap_cons, failAt, hw, List.filter_cons] using ih
    · cases hw : w k with
      | none => simpa [List.filterMap_cons, failAt, hk, hw, List.filter_cons] using ih
      | some v => simpa [List.filterMap_cons, failAt, hk, hw, List.filter_cons] using ih

/-- C3: the batched fetch loop of extractEconomicData with concurrency 5
runs exactly ceiling of n over 5 sequential groups, its event trace is
the group settlement blocks with the inter-batch delay exactly between
consecutive groups (skipped after the final group, giving one delay less
than the number of groups), every item settles regardless of worker
outcome, the accumulated results are exactly the per-item outcomes in
item order, and forcing any single item to fail only removes that item
from the results, leaving every other item of the same and later groups
untouched. -/
theorem extractEconomicData_batchScheduling {κ V : Type} [DecidableEq κ]
    (items : List κ) (w : κ → Option V) (j : κ) :
    (batchChunks 5 items).length = (items.length + 4) / 5
    ∧ chunkTrace (batchChunks 5 items) =
        List.intercalate [BatchEvent.interBatchDelay]
          ((batchChunks 5 items).map (fun g => g.map BatchEvent.settled))
    ∧ (runBatched 5 items w).2 = (batchChunks 5 items).length - 1
    ∧ (∀ k ∈ items, BatchEvent.settled k ∈ chunkTrace (batchChunks 5 items))
    ∧ (runBatched 5 items w).1 =
        items.filterMap (fun k => (w k).map (fun v => (k, v)))
    ∧ (runBatched 5 items (failAt j w)).1 =
        (runBatched 5 items w).1.filter (fun p => decide (p.1 ≠ j)) := by
  have hflat : (batchChunks 5 items).flatten = items :=
    batchChunks_flatten items.length items le_rfl
  refine ⟨batchChunks_length items.length items le_rfl,
    chunkTrace_intercalate _, processChunks_delays w _, ?_, ?_, ?_⟩
  · intro k hk
    have : k ∈ (batchChunks 5 items).flatten := by rw [hflat]; exact hk
    obtain ⟨g, hg, hkg⟩ := List.mem_flatten.mp this
    exact settled_mem_chunkTrace k _ g hg hkg
  · rw [runBatched, processChunks_results, hflat]
  · rw [runBatched, runBatched, processChunks_results, processChunks_results, hflat]
    exact filterMap_failAt w j items

/-- Witness for C3: seven items under concurrency 5 form two groups with
one delay between them; item 3 fails yet all others settle and complete,
and forcing item 2 to fail removes only item 2. -/
theorem extractEconomicData_batchScheduling_witness :
    (batchChunks 5 [0, 1, 2, 3, 4, 5, 6]).length = 2
    ∧ (runBatched 5 [0, 1, 2, 3, 4, 5, 6]
        (fun k => if k = 3 then none else some (k * 10))).2 = 1
    ∧ BatchEvent.settled 3 ∈ chunkTrace (batchChunks 5 [0, 1, 2, 3, 4, 5, 6])
    ∧ (runBatched 5 [0, 1, 2, 3, 4, 5, 6]
        (fun k => if k = 3 then none else some (k * 10))).1 =
      [(0, 0), (1, 10), (2, 20), (4, 40), (5, 50), (6, 60)]
    ∧ (runBatched 5 [0, 1, 2, 3, 4, 5, 6]
        (failAt 2 (fun k => if k = 3 then none else some (k * 10)))).1 =
      [(0, 0), (1, 10), (4, 40), (5, 50), (6, 60)] := by
  have h := extractEconomicData_batchScheduling [0, 1, 2, 3, 4, 5, 6]
    (fun k => if k = 3 then none else some (k * 10)) 2
  have hchunks : batchChunks 5 [0, 1, 2, 3, 4, 5, 6] = [[0, 1, 2, 3, 4], [5, 6]] := by
    simp [batchChunks]
  refine ⟨by rw [hchunks]; rfl,
    by rw [h.2.2.1, hchunks]; rfl,
    h.2.2.2.1 3 (by decide),
    by rw [h.2.2.2.2.1]; rfl,
    by rw [h.2.2.2.2.2, h.2.2.2.2.1]; rfl⟩

/-- C4 (amended): extraction never throws (the model is total); a
partial summary snapshot is propagated as-is, with extractSummaryData
rejecting exactly the completely empty snapshot, and the top-level
fetches throw their could-not-extract error exactly on a null
extraction; but extractAssetProfile rejects every snapshot with five or
fewer matched fields, so sparse (non-empty) profile snapshots are also
rejected. -/
theorem extraction_rejection_policy (streamers : List FinStreamer)
    (addl : String → Option String) (jsonF : String → Option TypedVal)
    (doc : String → Option String) (symbol currentDate : String) :
    (extractSummaryData streamers addl jsonF = none ↔
      buildSummaryData streamers addl jsonF = [])
    ∧ (∀ m, extractSummaryData streamers addl jsonF = some m →
        m = buildSummaryData streamers addl jsonF)
    ∧ (extractAssetProfile doc = none ↔ profileKeyCount doc ≤ 5)
    ∧ (extractSummaryData streamers addl jsonF = none →
        fetchYahooSummary symbol streamers addl jsonF currentDate =
          .error "Could not extract financial summary data from Yahoo Finance page")
    ∧ (extractAssetProfile doc = none →
        fetchYahooProfile symbol doc currentDate =
          .error "Could not extract company profile data from Yahoo Finance page") := by
  refine ⟨?_, ?_, ?_, ?_, ?_⟩
  · rw [extractSummaryData]
    by_cases h : 0 < (buildSummaryData streamers addl jsonF).length
    · simp only [if_pos h]
      constructor
      · intro he
        cases he
      · intro he
        rw [he] at h
        cases h
    · simp only [if_neg h]
      simp only [Nat.pos_iff_ne_zero, ne_eq, not_not] at h
      simp [List.length_eq_zero.mp h]
  · intro m hm
    rw [extractSummaryData] at hm
    by_cases h : 0 < (buildSummaryData streamers addl jsonF).length
    · rw [if_pos h] at hm
      exact (Option.some.inj hm).symm
    · rw [if_neg h] at hm
      cases hm
  · rw [extractAssetProfile]
    by_cases h : 5 < profileKeyCount doc
    · simp only [if_pos h]
      constructor
      · intro he
        cases he
      · intro he
        omega
    · simp only [if_neg h]
      simp
      omega
  · intro h
    unfold fetchYahooSummary
    rw [h]
  · intro h
    unfold fetchYahooProfile
    rw [h]

/-- Counterexample to C4 as stated: a profile document matching exactly
three field patterns produces a non-empty (merely sparse) snapshot, yet
extractAssetProfile rejects it with null and the top-level fetch throws,
so rejection is not restricted to completely empty snapshots. -/
theorem extractAssetProfile_sparse_counterexample :
    profileKeyCount (fun f =>
      if f = "address1" then some "1 Infinite Loop"
      else if f = "city" then some "Cupertino"
      else if f = "fullTimeEmployees" then some "300" else none) = 3
    ∧ (buildAssetProfile (fun f =>
        if f = "address1" then some "1 Infinite Loop"
        else if f = "city" then some "Cupertino"
        else if f = "fullTimeEmployees" then some "300" else none)).city =
      some "Cupertino"
    ∧ extractAssetProfile (fun f =>
        if f = "address1" then some "1 Infinite Loop"
        else if f = "city" then some "Cupertino"
        else if f = "fullTimeEmployees" then some "300" else none) = none := by
  refine ⟨by simp [profileKeyCount, profileFieldNames], by simp [buildAssetProfile], ?_⟩
  rw [extractAssetProfile,
    if_neg (by simp [profileKeyCount, profileFieldNames])]

/-- Witness for C4: a single-field summary snapshot is kept as-is, an
empty one is rejected, and the sparse three-field profile document of the
counterexample triggers the top-level could-not-extract error. -/
theorem extraction_rejection_policy_witness :
    extractSummaryData [⟨"marketCap", some "3.00T", "3.00T"⟩] (fun _ => none)
      (fun _ => none) ≠ none
    ∧ extractSummaryData [] (fun _ => none) (fun _ => none) = none
    ∧ fetchYahooProfile "AAPL" (fun f =>
        if f = "address1" then some "1 Infinite Loop"
        else if f = "city" then some "Cupertino"
        else if f = "fullTimeEmployees" then some "300" else none) "2026-10-12" =
      .error "Could not extract company profile data from Yahoo Finance page" := by
  refine ⟨?_, ?_, ?_⟩
  · intro h
    have h2 := (extraction_rejection_policy [⟨"marketCap", some "3.00T", "3.00T"⟩]
      (fun _ => none) (fun _ => none) (fun _ => none) "AAPL" "2026-10-12").1.mp h
    have h3 : buildSummaryData [⟨"marketCap", some "3.00T", "3.00T"⟩]
        (fun _ => none) (fun _ => none) ≠ [] := by
      rw [buildSummaryData]
      have e1 : parseFinancialValue (some "3.00T") "3.00T" =
          some (.val 3000000000000) := by
        simp [parseFinancialValue, jsOr, parseFloatChars, stripSign, afterDot,
          isDigitChar, digitsToNat, JSNum.mul]
        norm_num
      simp [applyFinStreamers, summaryFieldMapping, e1, setField,
        applyAdditionalMetrics, additionalMetricFields, applyJsonFields,
        jsonFieldList, reconcileTrailingPE, lookupField, List.find?]
    exact h3 h2
  · exact (extraction_rejection_policy [] (fun _ => none) (fun _ => none)
      (fun _ => none) "AAPL" "2026-10-12").1.mpr rfl
  · exact (extraction_rejection_policy [] (fun _ => none) (fun _ => none)
      (fun f =>
        if f = "address1" then some "1 Infinite Loop"
        else if f = "city" then some "Cupertino"
        else if f = "fullTimeEmployees" then some "300" else none)
      "AAPL" "2026-10-12").2.2.2.2
      (by
        rw [extractAssetProfile,
          if_neg (by simp [profileKeyCount, profileFieldNames])])

/-- C5 (amended): for every indicator key, the Yahoo substitute request
is issued exactly when the primary FRED attempt throws and the key
contains the treasury substring — not whenever the primary merely yields
no usable value; a failing or non-matching substitute is swallowed,
leaving the indicator absent rather than raising; and substitute
outcomes for one key never change the results of any other key. -/
theorem treasuryFallback_policy (key seriesId : String) (primary : FredAttempt)
    (keys : List (String × String)) (prim : String → FredAttempt)
    (fb1 fb2 : String → YahooAttempt) (j : String) :
    (fallbackInvoked key primary = true ↔
      primary = .failure ∧ stringIncludes key "treasury" = true)
    ∧ fetchIndicatorValue key seriesId .failure .failure = none
    ∧ fetchIndicatorValue key seriesId .failure (.success none) = none
    ∧ ((∀ k, k ≠ j → fb1 k = fb2 k) →
        (economicResults keys prim fb1).filter (fun p => decide (p.1 ≠ j)) =
          (economicResults keys prim fb2).filter (fun p => decide (p.1 ≠ j))) := by
  refine ⟨?_, ?_, ?_, ?_⟩
  · cases primary with
    | failure => simp [fallbackInvoked]
    | success obs => simp [fallbackInvoked]
  · cases h : stringIncludes key "treasury" <;> simp [fetchIndicatorValue, h]
  · cases h : stringIncludes key "treasury" <;> simp [fetchIndicatorValue, h]
  · intro hfb
    induction keys with
    | nil => rfl
    | cons e t ih =>
      simp only [economicResults, List.filterMap_cons]
      by_cases he : e.1 = j
      · cases h1 : fetchIndicatorValue e.1 e.2 (prim e.1) (fb1 e.1) <;>
          cases h2 : fetchIndicatorValue e.1 e.2 (prim e.1) (fb2 e.1) <;>
          simpa [he, List.filter_cons] using ih
      · have heq : fb1 e.1 = fb2 e.1 := hfb e.1 he
        rw [heq]
        cases h2 : fetchIndicatorValue e.1 e.2 (prim e.1) (fb2 e.1) <;>
          simpa [he, List.filter_cons] using ih

/-- Counterexample to C5 as stated: for the treasury ten-year key, a
primary response whose only observation carries the placeholder value
yields no usable value, yet the Yahoo substitute is not invoked (it runs
only inside the catch of a thrown primary request) and the indicator
stays absent even though the substitute page would have matched. -/
theorem treasuryFallback_counterexample :
    fallbackInvoked "treasury10y" (.success [⟨"2024-01-01", some ".", "", ""⟩]) = false
    ∧ fetchIndicatorValue "treasury10y" "DGS10"
        (.success [⟨"2024-01-01", some ".", "", ""⟩]) (.success (some "4.5")) = none := by
  exact ⟨rfl, rfl⟩

/-- Witness for C5: the substitute fires for a thrown treasury primary,
a doubly failing key stays absent, and granting one key a successful
substitute leaves every other key's result unchanged. -/
theorem treasuryFallback_policy_witness :
    fallbackInvoked "treasury10y" FredAttempt.failure = true
    ∧ fetchIndicatorValue "treasury10y" "DGS10" .failure .failure = none
    ∧ (economicResults [("gdp", "GDP"), ("treasury10y", "DGS10")]
        (fun _ => .failure) (fun _ => .failure)).filter
          (fun p => decide (p.1 ≠ "treasury10y")) =
      (economicResults [("gdp", "GDP"), ("treasury10y", "DGS10")]
        (fun _ => .failure)
        (fun k => if k = "treasury10y" then .success (some "4.5") else .failure)).filter
          (fun p => decide (p.1 ≠ "treasury10y")) := by
  have h := treasuryFallback_policy "treasury10y" "DGS10" FredAttempt.failure
    [("gdp", "GDP"), ("treasury10y", "DGS10")] (fun _ => .failure)
    (fun _ => .failure)
    (fun k => if k = "treasury10y" then .success (some "4.5") else .failure)
    "treasury10y"
  exact ⟨h.1.mpr ⟨rfl, by decide⟩, h.2.1, h.2.2.2 (fun k hk => by simp [hk])⟩

/-- C6 (amended): with fewer than 2 symbols, fetchStockCorrelation
raises the minimum-symbol precondition error before any page request is
issued (zero network calls); extractStockCorrelationData also issues no
request, but its own try/catch swallows the internally thrown
precondition error and the caller receives null, not an error. -/
theorem correlationMinSymbols (symbols : List String)
    (fetch : String → Option MetricCaptures) (today : String)
    (h : symbols.length < 2) :
    fetchStockCorrelation symbols fetch today =
      (.error "Need at least 2 symbols for correlation analysis", 0)
    ∧ extractStockCorrelationDataCore symbols fetch today =
      (.error "Need at least 2 symbols for correlation analysis", 0)
    ∧ extractStockCorrelationData symbols fetch today = (none, 0) := by
  refine ⟨?_, ?_, ?_⟩
  · rw [fetchStockCorrelation, if_pos h]
  · rw [extractStockCorrelationDataCore, if_pos h]
  · rw [extractStockCorrelationData, extractStockCorrelationDataCore, if_pos h]

/-- Counterexample to C6 as stated: called with exactly one symbol,
extractStockCorrelationData does throw the precondition internally, but
its catch converts it to a null return, so the call does not fail with a
precondition error at its boundary. -/
theorem extractStockCorrelationData_swallows_counterexample :
    extractStockCorrelationData ["AAPL"] (fun _ => none) "2026-10-12" = (none, 0)
    ∧ extractStockCorrelationDataCore ["AAPL"] (fun _ => none) "2026-10-12" =
      (.error "Need at least 2 symbols for correlation analysis", 0) := by
  exact ⟨rfl, rfl⟩

/-- Witness for C6: one symbol triggers the precondition error from
fetchStockCorrelation with zero network calls. -/
theorem correlationMinSymbols_witness :
    fetchStockCorrelation ["AAPL"] (fun _ => none) "2026-10-12" =
      (.error "Need at least 2 symbols for correlation analysis", 0)
    ∧ extractStockCorrelationData ["AAPL"] (fun _ => none) "2026-10-12" = (none, 0) := by
  have h := correlationMinSymbols ["AAPL"] (fun _ => none) "2026-10-12" (by decide)
  exact ⟨h.1, h.2.2⟩

/-- C7 (amended): observations carrying the literal placeholder value
are filtered out before any numeric parse, so every emitted FRED series
row originates from a non-placeholder, non-null observation (the
placeholder is never parsed, and parseFloat in this pipeline never
throws); a response consisting only of placeholder observations produces
no row at all — the value is omitted rather than surfacing as a null row
field — and likewise leaves the economic-indicator key absent. -/
theorem placeholderObservations_filtered (seriesId : String) (respObs : List RawObs)
    (limit : ℕ) (fetchDate : String) (key sid : String) (fb : YahooAttempt) :
    (∀ r ∈ toFredSeriesRows (extractFredSeriesData seriesId respObs limit) fetchDate,
      ∃ o ∈ respObs, o.value ≠ some "." ∧ o.value ≠ none ∧
        r.value = parseFloatChars (o.value.getD "").data ∧ r.date = o.date)
    ∧ ((∀ o ∈ respObs, o.value = some ".") →
        toFredSeriesRows (extractFredSeriesData seriesId respObs limit) fetchDate = [])
    ∧ ((∀ o ∈ respObs, o.value = some ".") →
        fetchIndicatorValue key sid (.success respObs) fb = none) := by
  have hval : ∀ v : Option String, isValidObsValue v = true ↔ (v ≠ some "." ∧ v ≠ none) := by
    intro v
    cases v with
    | none => simp [isValidObsValue]
    | some s => simp [isValidObsValue]
  refine ⟨?_, ?_, ?_⟩
  · intro r hr
    cases hE : extractFredSeriesData seriesId respObs limit with
    | none => simp [toFredSeriesRows, hE] at hr
    | some sd =>
      simp only [toFredSeriesRows, hE] at hr
      obtain ⟨o, ho, rfl⟩ := List.mem_map.mp hr
      rw [extractFredSeriesData] at hE
      by_cases hlen : 0 < respObs.length
      · rw [if_pos hlen] at hE
        cases Option.some.inj hE
        have ho2 : o ∈ respObs.filter (fun o => isValidObsValue o.value) :=
          List.mem_of_mem_take ho
        have hmem := (List.mem_filter.mp ho2).1
        have hvalid := (hval o.value).mp (List.mem_filter.mp ho2).2
        exact ⟨o, hmem, hvalid.1, hvalid.2, rfl, rfl⟩
      · rw [if_neg hlen] at hE
        cases hE
  · intro hall
    have hfil : respObs.filter (fun o => isValidObsValue o.value) = [] := by
      rw [List.filter_eq_nil_iff]
      intro o ho
      rw [hall o ho]
      decide
    by_cases hlen : 0 < respObs.length <;>
      simp [extractFredSeriesData, toFredSeriesRows, hfil, hlen]
  · intro hall
    have hfind : respObs.find? (fun o => isValidObsValue o.value) = none := by
      rw [List.find?_eq_none]
      intro o ho
      rw [hall o ho]
      decide
    by_cases hlen : 0 < respObs.length <;>
      simp [fetchIndicatorValue, hlen, hfind]

/-- Counterexample to C7 as stated: for a response whose only
observation value is the placeholder, no Canonical Row exists at all —
the placeholder observation is dropped before row building, so no row
field is ever set to null for it. -/
theorem placeholderObservation_counterexample :
    extractFredSeriesData "GDP" [⟨"2024-01-01", some ".", "rs", "re"⟩] 10 =
      some ⟨"GDP", []⟩
    ∧ toFredSeriesRows
        (extractFredSeriesData "GDP" [⟨"2024-01-01", some ".", "rs", "re"⟩] 10)
        "2026-10-12" = [] := by
  exact ⟨rfl, rfl⟩

/-- Witness for C7: the all-placeholder single-observation response
yields zero rows and an absent economic indicator. -/
theorem placeholderObservations_filtered_witness :
    toFredSeriesRows
      (extractFredSeriesData "GDP" [⟨"2024-01-01", some ".", "rs", "re"⟩] 10)
      "2026-10-12" = []
    ∧ fetchIndicatorValue "gdp" "GDP"
        (.success [⟨"2024-01-01", some ".", "rs", "re"⟩]) .failure = none := by
  have h := placeholderObservations_filtered "GDP"
    [⟨"2024-01-01", some ".", "rs", "re"⟩] 10 "2026-10-12" "gdp" "GDP" .failure
  have hall : ∀ o ∈ ([⟨"2024-01-01", some ".", "rs", "re"⟩] : List RawObs),
      o.value = some "." := by
    intro o ho
    rw [List.mem_singleton.mp ho]
  exact ⟨h.2.1 hall, h.2.2 hall⟩

/-- C8 (amended): the row builders emit only unwrapped primitives — a
wrapper with a raw value unwraps to exactly that primitive, and a
raw-less wrapper is decoded from its formatted string — an unavailable
numeric field is null (never 0), and an unavailable string field is null
or a fixed documented placeholder (industry, sector and business summary
default to placeholder sentences, currency to USD), never the empty
string; in particular the marketCap wrapper with raw 3000000000000
yields the number 3000000000000 (checked in the witness). -/
theorem canonicalRow_primitives (summaryData : List (String × TypedVal))
    (p : AssetProfile) (tv : TypedVal) (r : JSNum) (f symbol currentDate : String) :
    (tv.raw = some r → getValue (some (.obj tv)) = some r)
    ∧ (tv.raw = none → tv.fmt = some f → getValue (some (.obj tv)) = fmtStringValue f)
    ∧ getValue none = none
    ∧ (lookupField summaryData "marketCap" = none →
        (toStockSummaryRow symbol summaryData currentDate).market_cap = none)
    ∧ (lookupField summaryData "enterpriseValue" = none →
        (toStockSummaryRow symbol summaryData currentDate).enterprise_value = none)
    ∧ (lookupField summaryData "sharesOutstanding" = none →
        (toStockSummaryRow symbol summaryData currentDate).shares_outstanding = none)
    ∧ (lookupField summaryData "beta" = none →
        (toStockSummaryRow symbol summaryData currentDate).beta = none)
    ∧ (lookupField summaryData "trailingPE" = none →
        (toStockSummaryRow symbol summaryData currentDate).trailing_pe = none)
    ∧ (lookupField summaryData "forwardPE" = none →
        (toStockSummaryRow symbol summaryData currentDate).forward_pe = none)
    ∧ (lookupField summaryData "trailingEps" = none →
        (toStockSummaryRow symbol summaryData currentDate).trailing_eps = none)
    ∧ (lookupField summaryData "forwardEps" = none →
        (toStockSummaryRow symbol summaryData currentDate).forward_eps = none)
    ∧ (lookupField summaryData "enterpriseToEbitda" = none →
        (toStockSummaryRow symbol summaryData currentDate).enterprise_to_ebitda = none)
    ∧ (lookupField summaryData "enterpriseToRevenue" = none →
        (toStockSummaryRow symbol summaryData currentDate).enterprise_to_revenue = none)
    ∧ (lookupField summaryData "pegRatio" = none →
        (toStockSummaryRow symbol summaryData currentDate).peg_ratio = none)
    ∧ (toStockProfileRow symbol p currentDate).full_time_employees ≠ some 0
    ∧ (toStockProfileRow symbol p currentDate).address ≠ some ""
    ∧ (toStockProfileRow symbol p currentDate).city ≠ some ""
    ∧ (toStockProfileRow symbol p currentDate).country ≠ some ""
    ∧ (toStockProfileRow symbol p currentDate).phone ≠ some ""
    ∧ (toStockProfileRow symbol p currentDate).zip ≠ some ""
    ∧ (p.industry = none →
        (toStockProfileRow symbol p currentDate).industry = "Information not available") := by
  have hstr : ∀ v : Option String, jsStrOrNone v ≠ some "" := by
    intro v
    cases v with
    | none => simp [jsStrOrNone]
    | some s =>
      by_cases hs : s = "" <;> simp [jsStrOrNone, hs]
  have hnat : ∀ v : Option ℕ, jsNatOrNone v ≠ some 0 := by
    intro v
    cases v with
    | none => simp [jsNatOrNone]
    | some n =>
      by_cases hn : n = 0 <;> simp [jsNatOrNone, hn]
  refine ⟨?_, ?_, rfl, ?_, ?_, ?_, ?_, ?_, ?_, ?_, ?_, ?_, ?_, ?_, ?_, ?_, ?_, ?_, ?_, ?_, ?_⟩
  · intro h
    simp [getValue, h]
  · intro h1 h2
    simp [getValue, h1, h2]
  all_goals
    first
    | (intro h; simp [toStockSummaryRow, h, getValue])
    | exact hnat _
    | (simp only [toStockProfileRow]; exact hstr _)
    | (intro h; simp [toStockProfileRow, jsStrOrDefault, h])

/-- Counterexample to C8 as stated: a completely unavailable asset
profile yields profile-row string fields carrying fixed placeholder text
rather than null, so unavailable fields are not always represented as
null. -/
theorem toStockProfileRow_placeholder_counterexample :
    (toStockProfileRow "aapl"
      ⟨none, none, none, none, none, none, none, none, none, none, none⟩
      "2026-10-12").industry = "Information not available"
    ∧ (toStockProfileRow "aapl"
        ⟨none, none, none, none, none, none, none, none, none, none, none⟩
        "2026-10-12").long_business_summary =
      "Company information extracted from page metadata" := by
  exact ⟨rfl, rfl⟩

/-- Witness for C8: the documented marketCap wrapper unwraps to the raw
number 3000000000000 (never the display string), an absent field maps to
null, and an empty profile row carries no zero employee count. -/
theorem canonicalRow_primitives_witness :
    getValue (some (.obj ⟨some (.val 3000000000000), some "3.00T"⟩)) =
      some (.val 3000000000000)
    ∧ (toStockSummaryRow "AAPL"
        [("marketCap", ⟨some (.val 3000000000000), some "3.00T"⟩)]
        "2026-10-12").market_cap = some (.val 3000000000000)
    ∧ (toStockSummaryRow "AAPL"
        [("marketCap", ⟨some (.val 3000000000000), some "3.00T"⟩)]
        "2026-10-12").beta = none
    ∧ (toStockProfileRow "AAPL"
        ⟨none, none, none, none, none, none, none, none, none, none, some 0⟩
        "2026-10-12").full_time_employees ≠ some 0 := by
  have h := canonicalRow_primitives
    [("marketCap", ⟨some (.val 3000000000000), some "3.00T"⟩)]
    ⟨none, none, none, none, none, none, none, none, none, none, some 0⟩
    ⟨some (.val 3000000000000), some "3.00T"⟩ (.val 3000000000000)
    "3.00T" "AAPL" "2026-10-12"
  refine ⟨h.1 rfl, ?_, ?_, h.2.2.2.2.2.2.2.2.2.2.2.2.2.2.1⟩
  · simp [toStockSummaryRow, lookupField, List.find?, getValue]
  · exact h.2.2.2.2.2.2.1 (by simp [lookupField, List.find?])

theorem find_replace (k : String) (v : TypedVal) :
    ∀ m : List (String × TypedVal),
      (m.map (fun p => if p.1 = k then (k, v) else p)).find? (fun p => p.1 = k) =
        (m.find? (fun p => p.1 = k)).map (fun _ => (k, v)) := by
  intro m
  induction m with
  | nil => rfl
  | cons a t ih =>
    by_cases ha : a.1 = k
    · simp [List.find?_cons, ha]
    · simp [List.find?_cons, ha, ih]

theorem find_append_nomatch (k : String) (v : TypedVal) :
    ∀ m : List (String × TypedVal), (∀ p ∈ m, ¬(p.1 = k)) →
      (m ++ [(k, v)]).find? (fun p => p.1 = k) = some (k, v) := by
  intro m
  induction m with
  | nil =>
    intro _
    simp [List.find?_cons]
  | cons a t ih =>
    intro h
    have ha : ¬(a.1 = k) := h a (by simp)
    rw [List.cons_append, List.find?_cons]
    simp only [ha, decide_eq_true_eq, if_neg]
    simpa [ha] using ih (fun p hp => h p (List.mem_cons_of_mem a hp))

theorem lookupField_setField (m : List (String × TypedVal)) (k : String) (v : TypedVal) :
    lookupField (setField m k v) k = some v := by
  rw [setField]
  by_cases h : (m.find? (fun p => p.1 = k)).isSome
  · rw [if_pos h, lookupField, find_replace]
    obtain ⟨a, ha⟩ := Option.isSome_iff_exists.mp h
    rw [ha]
    rfl
  · have hnone := Option.not_isSome_iff_eq_none.mp h
    have hall : ∀ p ∈ m, ¬(p.1 = k) := by
      intro p hp hpk
      have := List.find?_eq_none.mp hnone p hp
      simp [hpk] at this
    rw [if_neg h, lookupField, find_append_nomatch k v m hall]
    rfl

/-- C9: the DOM-sourced trailingPE survives only if it passes the
magnitude plausibility check — when the already-extracted trailingPE has
raw value below 10 and the embedded-JSON trailingPE parses with raw
above 10, the JSON value replaces it; in every other case (DOM value not
below 10, JSON value not above 10, or JSON pattern absent or unparsable)
the already-extracted map is kept unchanged. -/
theorem trailingPE_plausibility (m : List (String × TypedVal))
    (jsonF : String → Option TypedVal) (tv peData : TypedVal) :
    (lookupField m "trailingPE" = some tv → rawLt tv 10 = true →
      jsonF "trailingPE" = some peData → rawGt peData 10 = true →
      lookupField (reconcileTrailingPE m jsonF) "trailingPE" = some peData)
    ∧ (lookupField m "trailingPE" = some tv → rawLt tv 10 = false →
      reconcileTrailingPE m jsonF = m)
    ∧ (lookupField m "trailingPE" = some tv → rawLt tv 10 = true →
      jsonF "trailingPE" = some peData → rawGt peData 10 = false →
      reconcileTrailingPE m jsonF = m)
    ∧ (lookupField m "trailingPE" = some tv → rawLt tv 10 = true →
      jsonF "trailingPE" = none → reconcileTrailingPE m jsonF = m)
    ∧ (lookupField m "trailingPE" = none → reconcileTrailingPE m jsonF = m) := by
  refine ⟨?_, ?_, ?_, ?_, ?_⟩
  · intro h1 h2 h3 h4
    rw [reconcileTrailingPE, h1]
    simp only [h2, if_true, h3, h4]
    exact lookupField_setField m "trailingPE" peData
  · intro h1 h2
    rw [reconcileTrailingPE, h1]
    simp [h2]
  · intro h1 h2 h3 h4
    rw [reconcileTrailingPE, h1]
    simp [h2, h3, h4]
  · intro h1 h2 h3
    rw [reconcileTrailingPE, h1]
    simp [h2, h3]
  · intro h1
    rw [reconcileTrailingPE, h1]

/-- Witness for C9: a DOM trailingPE of 5 is replaced by the JSON value
of 25, and is kept when the JSON value is only 8. -/
theorem trailingPE_plausibility_witness :
    lookupField
      (reconcileTrailingPE [("trailingPE", ⟨some (.val 5), some "5"⟩)]
        (fun f => if f = "trailingPE" then some ⟨some (.val 25), some "25"⟩ else none))
      "trailingPE" = some ⟨some (.val 25), some "25"⟩
    ∧ reconcileTrailingPE [("trailingPE", ⟨some (.val 5), some "5"⟩)]
        (fun f => if f = "trailingPE" then some ⟨some (.val 8), some "8"⟩ else none) =
      [("trailingPE", ⟨some (.val 5), some "5"⟩)] := by
  constructor
  · exact (trailingPE_plausibility [("trailingPE", ⟨some (.val 5), some "5"⟩)]
      (fun f => if f = "trailingPE" then some ⟨some (.val 25), some "25"⟩ else none)
      ⟨some (.val 5), some "5"⟩ ⟨some (.val 25), some "25"⟩).1
      (by simp [lookupField, List.find?])
      (by simp [rawLt]; norm_num)
      (by simp)
      (by simp [rawGt]; norm_num)
  · exact (trailingPE_plausibility [("trailingPE", ⟨some (.val 5), some "5"⟩)]
      (fun f => if f = "trailingPE" then some ⟨some (.val 8), some "8"⟩ else none)
      ⟨some (.val 5), some "5"⟩ ⟨some (.val 8), some "8"⟩).2.2.1
      (by simp [lookupField, List.find?])
      (by simp [rawLt]; norm_num)
      (by simp)
      (by simp [rawGt]; norm_num)

theorem objKeys_aux :
    ∀ (ks acc : List String), acc.Nodup →
      (ks.foldl (fun a k => if k ∈ a then a else a ++ [k]) acc).Nodup := by
  intro ks
  induction ks with
  | nil =>
    intro acc h
    exact h
  | cons k t ih =>
    intro acc h
    simp only [List.foldl_cons]
    by_cases hk : k ∈ acc
    · rw [if_pos hk]
      exact ih acc h
    · rw [if_neg hk]
      refine ih _ ?_
      simp [List.nodup_append, h, hk]

theorem objKeys_nodup (ks : List String) : (objKeys ks).Nodup :=
  objKeys_aux ks [] List.nodup_nil

theorem clamp_bounds (x : ℚ) :
    -(1 / 2) ≤ min (95 / 100) (max (-(1 / 2)) x)
    ∧ min (95 / 100) (max (-(1 / 2)) x) ≤ 95 / 100 := by
  constructor
  · apply le_min
    · norm_num
    · exact le_max_left _ _
  · exact min_le_left _ _

theorem jsRound1000_bounds (q : ℚ) (h1 : -(1 / 2) ≤ q) (h2 : q ≤ 95 / 100) :
    -(1 / 2) ≤ jsRound1000 q ∧ jsRound1000 q ≤ 95 / 100 := by
  have hlo : (-500 : ℤ) ≤ ⌊q * 1000 + 1 / 2⌋ := by
    rw [Int.le_floor]
    push_cast
    linarith
  have hhi : ⌊q * 1000 + 1 / 2⌋ ≤ 950 := by
    have : ⌊q * 1000 + 1 / 2⌋ < 951 := by
      rw [Int.floor_lt]
      push_cast
      linarith
    omega
  have hlo' : (-500 : ℚ) ≤ ((⌊q * 1000 + 1 / 2⌋ : ℤ) : ℚ) := by exact_mod_cast hlo
  have hhi' : ((⌊q * 1000 + 1 / 2⌋ : ℤ) : ℚ) ≤ 950 := by exact_mod_cast hhi
  rw [jsRound1000]
  constructor <;> [linarith; linarith]

theorem pairCorrelationEntry_bounds (d1 d2 : StockMetrics) :
    -(1 / 2) ≤ pairCorrelationEntry d1 d2 ∧ pairCorrelationEntry d1 d2 ≤ 95 / 100 := by
  have h := clamp_bounds (rawPairCorrelation d1 d2)
  exact jsRound1000_bounds _ h.1 h.2

theorem filter_ne_length (s1 : String) :
    ∀ ks : List String, ks.Nodup → s1 ∈ ks →
      (ks.filter (fun s2 => decide (s1 ≠ s2))).length = ks.length - 1 := by
  intro ks
  induction ks with
  | nil =>
    intro _ h
    cases h
  | cons a t ih =>
    intro hnd hmem
    have hnd' := List.nodup_cons.mp hnd
    rcases List.mem_cons.mp hmem with h1 | h1
    · subst h1
      have hall : ∀ b ∈ t, decide (s1 ≠ b) = true := by
        intro b hb
        simp only [decide_eq_true_eq, ne_eq]
        intro he
        exact hnd'.1 (by rw [he]; exact hb)
      rw [List.filter_cons, if_neg (by simp), List.filter_eq_self.mpr hall]
      simp
    · have ha : s1 ≠ a := fun he => hnd'.1 (by rw [← he]; exact h1)
      have htlen : 1 ≤ t.length := by
        cases t with
        | nil => cases h1
        | cons x xs => simp
      rw [List.filter_cons, if_pos (by simp [ha]), List.length_cons,
        ih hnd'.2 h1]
      simp only [List.length_cons]
      omega

theorem toCorrelationRows_length (cd : CorrelationData) (h : cd.symbols.Nodup) :
    (toCorrelationRows (some cd)).length =
      cd.symbols.length * (cd.symbols.length - 1) := by
  rw [toCorrelationRows, List.length_flatten, List.map_map]
  have hcongr : ∀ s1 ∈ cd.symbols,
      (List.length ∘ fun symbol1 =>
        (cd.symbols.filter (fun symbol2 => decide (symbol1 ≠ symbol2))).map
          (fun symbol2 =>
            ({ symbol_1 := symbol1, symbol_2 := symbol2,
               correlation := cd.correlationMatrix symbol1 symbol2,
               symbol_1_price := jsQOrNone (cd.priceData symbol1).price,
               symbol_2_price := jsQOrNone (cd.priceData symbol2).price,
               symbol_1_change_percent := jsQOrNone (cd.priceData symbol1).changePercent,
               symbol_2_change_percent := jsQOrNone (cd.priceData symbol2).changePercent,
               analysis_date := cd.analysisDate } : CorrelationRow))) s1 =
        cd.symbols.length - 1 := by
    intro s1 hs1
    simp only [Function.comp_apply, List.length_map]
    exact filter_ne_length s1 cd.symbols h hs1
  rw [List.map_congr_left hcongr]
  rw [List.map_const']
  simp [List.sum_replicate, smul_eq_mul, Nat.mul_comm]

/-- C10: every correlation-analysis result has a matrix assigning
exactly 1 to each symbol paired with itself, every off-diagonal entry
clamped and rounded into the closed interval from minus 0.5 to 0.95, a
duplicate-free valid-symbol list, and emitted rows excluding all
self-pairs — exactly k times (k minus 1) rows for k fetched symbols. -/
theorem correlationMatrix_invariants (symbols : List String)
    (fetch : String → Option MetricCaptures) (today : String)
    (cd : CorrelationData) (n : ℕ)
    (hE : extractStockCorrelationData symbols fetch today = (some cd, n)) :
    (∀ s, cd.correlationMatrix s s = 1)
    ∧ (∀ s1 s2, s1 ≠ s2 →
        -(1 / 2) ≤ cd.correlationMatrix s1 s2 ∧ cd.correlationMatrix s1 s2 ≤ 95 / 100)
    ∧ cd.symbols.Nodup
    ∧ (toCorrelationRows (some cd)).length =
        cd.symbols.length * (cd.symbols.length - 1)
    ∧ (∀ r ∈ toCorrelationRows (some cd), r.symbol_1 ≠ r.symbol_2)
    ∧ n = symbols.length := by
  rw [extractStockCorrelationData, extractStockCorrelationDataCore] at hE
  by_cases h2 : symbols.length < 2
  · rw [if_pos h2] at hE
    cases hE
  rw [if_neg h2] at hE
  by_cases hv : 0 < (validSymbolsOf symbols fetch).length
  swap
  · rw [if_neg hv] at hE
    simp at hE
  rw [if_pos hv] at hE
  simp only [Prod.mk.injEq, Option.some.inj] at hE
  obtain ⟨hcd, hn⟩ := hE
  have hcd' : cd = ⟨validSymbolsOf symbols fetch, priceDataOf fetch,
      matrixValue (priceDataOf fetch), today⟩ := by
    cases hcd
    rfl
  subst hcd'
  refine ⟨?_, ?_, ?_, ?_, ?_, hn.symm⟩
  · intro s
    simp [matrixValue]
  · intro s1 s2 hne
    simp only [matrixValue, if_neg hne]
    exact pairCorrelationEntry_bounds _ _
  · exact objKeys_nodup _
  · exact toCorrelationRows_length _ (objKeys_nodup _)
  · intro r hr
    simp only [toCorrelationRows, List.mem_flatten, List.mem_map] at hr
    obtain ⟨inner, ⟨s1, hs1, hinner⟩, hrin⟩ := hr
    rw [← hinner] at hrin
    obtain ⟨s2, hs2, hre⟩ := List.mem_map.mp hrin
    have hpred := (List.mem_filter.mp hs2).2
    simp only [decide_eq_true_eq] at hpred
    rw [← hre]
    exact hpred

/-- Witness for C10: two fetched symbols give a diagonal of 1, two rows
(k times k minus 1 for k equal 2), bounded off-diagonal entries, and two
network calls. -/
theorem correlationMatrix_invariants_witness :
    (∀ s, (matrixValue (priceDataOf (fun _ =>
        some ⟨some 100, some 1, some 1, some 1, some 120, some 80, some 1000⟩))) s s = 1)
    ∧ (toCorrelationRows (some
        ⟨validSymbolsOf ["AAA", "BBB"] (fun _ =>
            some ⟨some 100, some 1, some 1, some 1, some 120, some 80, some 1000⟩),
          priceDataOf (fun _ =>
            some ⟨some 100, some 1, some 1, some 1, some 120, some 80, some 1000⟩),
          matrixValue (priceDataOf (fun _ =>
            some ⟨some 100, some 1, some 1, some 1, some 120, some 80, some 1000⟩)),
          "2026-10-12"⟩)).length = 2
    ∧ -(1 / 2) ≤ (matrixValue (priceDataOf (fun _ =>
        some ⟨some 100, some 1, some 1, some 1, some 120, some 80, some 1000⟩)))
        "AAA" "BBB"
    ∧ (matrixValue (priceDataOf (fun _ =>
        some ⟨some 100, some 1, some 1, some 1, some 120, some 80, some 1000⟩)))
        "AAA" "BBB" ≤ 95 / 100 := by
  have h := correlationMatrix_invariants ["AAA", "BBB"]
    (fun _ => some ⟨some 100, some 1, some 1, some 1, some 120, some 80, some 1000⟩)
    "2026-10-12"
    ⟨validSymbolsOf ["AAA", "BBB"] (fun _ =>
        some ⟨some 100, some 1, some 1, some 1, some 120, some 80, some 1000⟩),
      priceDataOf (fun _ =>
        some ⟨some 100, some 1, some 1, some 1, some 120, some 80, some 1000⟩),
      matrixValue (priceDataOf (fun _ =>
        some ⟨some 100, some 1, some 1, some 1, some 120, some 80, some 1000⟩)),
      "2026-10-12"⟩
    2 rfl
  have hb := h.2.1 "AAA" "BBB" (by decide)
  refine ⟨h.1, ?_, hb.1, hb.2⟩
  have hlen := h.2.2.2.1
  have hsym : validSymbolsOf ["AAA", "BBB"] (fun _ =>
      some ⟨some 100, some 1, some 1, some 1, some 120, some 80, some 1000⟩) =
      ["AAA", "BBB"] := rfl
  rw [hlen]
  rw [hsym]
  rfl

end FinancialsMcp
